import Mathlib

/-!
Verification of the Go Fish simulator (src/gofish/cards.py, player.py, game.py).

The Python code is embedded shallowly:
* `Card`, `Deck` (a `List Card`), `Hand` (a `List Card`) and the operations on
  them are translated function by function from `cards.py`.
* The four player strategies become a `Strategy` tag on a `Player` structure;
  the interactive (human) variant is outside the scope of the claims, which all
  concern the non-interactive strategies.
* Python's shared `random` module is modelled as an explicit stream of natural
  numbers (`Rng`); `random.choice(lst)` consumes one number `i` from the stream
  and returns `lst[i % len(lst)]`, so quantifying over all streams quantifies
  over every possible behaviour of the random source.  `random.shuffle` is
  modelled by quantifying over all permutations of the standard deck.
* Python's `list(set(...))` in `Hand.get_ranks` has an implementation-defined
  order; the embedding fixes the canonical first-occurrence order (the same
  canonicalisation used for `dict` key order, which in Python genuinely is
  first-insertion order).
-/

/-- Card ranks, in the enumeration order of `Card.RANKS` in cards.py. -/
inductive Rank
  | r2 | r3 | r4 | r5 | r6 | r7 | r8 | r9 | r10 | rJ | rQ | rK | rA
deriving DecidableEq, Inhabited, Repr

/-- Card suits, in the enumeration order of `Card.SUITS` in cards.py. -/
inductive Suit
  | hearts | diamonds | clubs | spades
deriving DecidableEq, Inhabited, Repr

/-- A playing card (class `Card` in cards.py); equality is structural. -/
structure Card where
  rank : Rank
  suit : Suit
deriving DecidableEq, Inhabited, Repr

/-- The list `Card.RANKS`. -/
def all_ranks : List Rank :=
  [.r2, .r3, .r4, .r5, .r6, .r7, .r8, .r9, .r10, .rJ, .rQ, .rK, .rA]

/-- The list `Card.SUITS`. -/
def all_suits : List Suit :=
  [.hearts, .diamonds, .clubs, .spades]

/-- The unshuffled 52-card deck built by `Deck.__init__` (suit-major,
rank-minor, matching the comprehension `for suit in SUITS for rank in RANKS`). -/
def standard_deck : List Card :=
  all_suits.flatMap (fun s => all_ranks.map (fun r => ⟨r, s⟩))

/-- Deck.draw: removes and returns the front card, or `none` when empty. -/
def draw (deck : List Card) : Option Card × List Card :=
  (deck.head?, deck.tail)

/-- Deck.draw_multiple: removes up to `count` cards from the front. -/
def draw_multiple (deck : List Card) (count : Nat) : List Card × List Card :=
  (deck.take count, deck.drop count)

/-- Number of cards of a given rank in a list of cards. -/
def count_rank (cards : List Card) (r : Rank) : Nat :=
  cards.countP (fun c => decide (c.rank = r))

/-- Hand.remove_card: removes the first structurally-equal card, if present. -/
def remove_card : List Card → Card → List Card
  | [], _ => []
  | c :: cs, card => if c = card then cs else c :: remove_card cs card

/-- Hand._partition_cards: splits the hand by a predicate
(`(matching, non_matching)`). -/
def partition_cards (cards : List Card) (p : Card → Bool) : List Card × List Card :=
  (cards.filter p, cards.filter (fun c => ! p c))

/-- Hand.remove_cards_of_rank: the new hand keeps the cards whose rank
differs, and the removed cards are returned (`(kept, removed)`). -/
def remove_cards_of_rank (cards : List Card) (rank : Rank) : List Card × List Card :=
  partition_cards cards (fun c => decide (c.rank ≠ rank))

/-- Hand.has_rank. -/
def has_rank (cards : List Card) (rank : Rank) : Bool :=
  cards.any (fun c => decide (c.rank = rank))

/-- First-occurrence deduplication; used to model both `dict` key order
(first-insertion order) and the canonical order chosen for `list(set(...))`. -/
def dedup_first : List Rank → List Rank
  | [] => []
  | r :: rs => r :: (dedup_first rs).filter (fun x => decide (x ≠ r))

/-- Hand.get_ranks: the distinct ranks of the hand (`list(set(...))`),
in canonical first-occurrence order. -/
def get_ranks (cards : List Card) : List Rank :=
  dedup_first (cards.map Card.rank)

/-- Hand.find_books: the ranks present with count exactly 4, in `dict`
insertion order (first occurrence in the hand). -/
def find_books (cards : List Card) : List Rank :=
  (dedup_first (cards.map Card.rank)).filter (fun r => decide (count_rank cards r = 4))

/-- The loop body of Hand.remove_books: for each book rank, the 4 cards of
that rank are appended to the accumulated books and dropped from the hand. -/
def remove_books_loop : List Rank → List (List Card) × List Card → List (List Card) × List Card
  | [], acc => acc
  | r :: rs, (bs, cs) =>
      remove_books_loop rs
        (bs ++ [cs.filter (fun c => decide (c.rank = r))],
         cs.filter (fun c => decide (c.rank ≠ r)))

/-- Hand.remove_books: returns `(books, remaining hand)`. -/
def remove_books (cards : List Card) : List (List Card) × List Card :=
  remove_books_loop (find_books cards) ([], cards)

/-- The loop of Player.check_for_books acting on the hand: each found book
rank is removed with `remove_cards_of_rank`. -/
def remove_ranks_loop : List Rank → List Card → List Card
  | [], h => h
  | r :: rs, h => remove_ranks_loop rs (remove_cards_of_rank h r).1

/-- Player strategy tag (the concrete subclass in player.py); the claims only
concern the three non-interactive strategies. -/
inductive Strategy
  | random | smart | memory
deriving DecidableEq, Inhabited, Repr

/-- A player (class `Player` in player.py).  `known_cards` is the
opponent-name → set-of-ranks knowledge store; `asked_ranks` is the
MemoryPlayer-only store filled by `record_ask` (sets are modelled as
duplicate-free lists). -/
structure Player where
  name : String
  hand : List Card
  books : List Rank
  known_cards : List (String × List Rank)
  strategy : Strategy
  asked_ranks : List (String × List Rank)
deriving DecidableEq, Inhabited, Repr

/-- Dictionary lookup in a knowledge store. -/
def lookup_set (m : List (String × List Rank)) (k : String) : Option (List Rank) :=
  (m.find? (fun e => e.1 == k)).map Prod.snd

/-- Dictionary update (replace the entry for `k`, or append a new one). -/
def set_entry (m : List (String × List Rank)) (k : String) (v : List Rank) :
    List (String × List Rank) :=
  match m with
  | [] => [(k, v)]
  | e :: es => if e.1 = k then (k, v) :: es else e :: set_entry es k v

/-- Player.check_for_books: every book rank found in the hand is appended to
the score list and its cards removed from the hand. -/
def check_for_books (p : Player) : List Rank × Player :=
  let new_books := find_books p.hand
  (new_books,
   { p with
       books := p.books ++ new_books,
       hand := remove_ranks_loop new_books p.hand })

/-- Player.update_knowledge: record (or clear) the belief that an opponent
holds a rank.  As in the source, the opponent's entry is created when absent;
a positive report inserts the rank, a negative one removes it. -/
def update_knowledge (p : Player) (player_name : String) (rank : Rank) (has_card : Bool) :
    Player :=
  let cur := (lookup_set p.known_cards player_name).getD []
  let new_set :=
    if has_card then (if rank ∈ cur then cur else cur ++ [rank])
    else cur.filter (fun x => decide (x ≠ rank))
  { p with known_cards := set_entry p.known_cards player_name new_set }

/-- MemoryPlayer.record_ask: record that `player_name` asked for `rank`
(never invoked by the game engine; see claim C9). -/
def record_ask (p : Player) (player_name : String) (rank : Rank) : Player :=
  let cur := (lookup_set p.asked_ranks player_name).getD []
  let new_set := if rank ∈ cur then cur else cur ++ [rank]
  { p with asked_ranks := set_entry p.asked_ranks player_name new_set }

/-- The shared sequential random source: a stream of natural numbers. -/
abbrev Rng := Nat → Nat

/-- Consume one value from the stream. -/
def Rng.next (g : Rng) : Nat × Rng :=
  (g 0, fun n => g (n + 1))

/-- random.choice(lst): consume one value `i` and return `lst[i % len(lst)]`.
Quantifying over all streams makes every element a possible outcome, which is
how the uniform choice of the source is reflected in the embedding (the
source never calls it on an empty list). -/
def random_choice {α : Type} [Inhabited α] (l : List α) (g : Rng) : α × Rng :=
  let (i, g1) := Rng.next g
  (l.getD (i % l.length) default, g1)

/-- The stable descending insertion used to model Python's stable
`sorted(keys, key=lambda r: rank_counts[r], reverse=True)`: an element moves
past entries with a strictly greater key and stops before the first entry
whose key is not greater, so entries with equal counts keep their original
(first-occurrence) order. -/
def insert_desc (f : Rank → Nat) (r : Rank) : List Rank → List Rank
  | [] => [r]
  | x :: xs => if f x > f r then x :: insert_desc f r xs else r :: x :: xs

/-- Stable descending sort by `f` (extensionally the unique stable sort,
hence the result of Python's `sorted(..., reverse=True)`). -/
def sort_ranks_desc (f : Rank → Nat) : List Rank → List Rank
  | [] => []
  | r :: rs => insert_desc f r (sort_ranks_desc f rs)

/-- SmartPlayer.choose_rank_to_ask_for: the first entry of the rank list
(in `dict` first-occurrence order) stably sorted by descending count. -/
def SmartPlayer.choose_rank_to_ask_for (p : Player) : Option Rank :=
  if p.hand.isEmpty then none
  else (sort_ranks_desc (fun r => count_rank p.hand r) (dedup_first (p.hand.map Card.rank))).head?

/-- MemoryPlayer.choose_rank_to_ask_for: textually identical to the
SmartPlayer version in player.py. -/
def MemoryPlayer.choose_rank_to_ask_for (p : Player) : Option Rank :=
  if p.hand.isEmpty then none
  else (sort_ranks_desc (fun r => count_rank p.hand r) (dedup_first (p.hand.map Card.rank))).head?

/-- RandomPlayer.choose_rank_to_ask_for: a uniform choice among the hand's
distinct ranks, or `none` on an empty hand. -/
def RandomPlayer.choose_rank_to_ask_for (p : Player) (g : Rng) : Option Rank × Rng :=
  let ranks := get_ranks p.hand
  if ranks.isEmpty then (none, g)
  else
    let (r, g1) := random_choice ranks g
    (some r, g1)

/-- The scan `for player_name in player_names: if player_name in store and
rank_to_ask in store[player_name]` shared by the Smart and Memory variants of
choose_player_to_ask (with `rank_to_ask = None` no name ever matches). -/
def first_known (store : List (String × List Rank)) (names : List String)
    (rank? : Option Rank) : Option String :=
  match rank? with
  | none => none
  | some r =>
      names.find? (fun n =>
        match lookup_set store n with
        | some s => decide (r ∈ s)
        | none => false)

/-- Strategy dispatch for choose_rank_to_ask_for. -/
def Player.choose_rank_to_ask_for (p : Player) (g : Rng) : Option Rank × Rng :=
  match p.strategy with
  | .random => RandomPlayer.choose_rank_to_ask_for p g
  | .smart => (SmartPlayer.choose_rank_to_ask_for p, g)
  | .memory => (MemoryPlayer.choose_rank_to_ask_for p, g)

/-- Strategy dispatch for choose_player_to_ask.  The Smart variant first
scans for an opponent known (via update_knowledge) to hold the rank it would
ask for; the Memory variant scans its `asked_ranks` store instead; both fall
back to a uniform random choice, which is all the Random variant does. -/
def Player.choose_player_to_ask (p : Player) (names : List String) (g : Rng) :
    String × Rng :=
  match p.strategy with
  | .random => random_choice names g
  | .smart =>
      match first_known p.known_cards names (SmartPlayer.choose_rank_to_ask_for p) with
      | some n => (n, g)
      | none => random_choice names g
  | .memory =>
      match first_known p.asked_ranks names (MemoryPlayer.choose_rank_to_ask_for p) with
      | some n => (n, g)
      | none => random_choice names g

/-- The game state (class `GoFishGame` in game.py; the `verbose` flag only
controls printing and is omitted). -/
structure GoFishGame where
  players : List Player
  initial_cards : Nat
  deck : List Card
  current_player_idx : Nat
  game_over : Bool
  turn_count : Nat
deriving DecidableEq, Inhabited, Repr

/-- Replace player `i` by `f` applied to it (Python mutates the object held
in the list; out-of-range indices leave the list unchanged and never occur
in reachable states). -/
def update_player_at (ps : List Player) (i : Nat) (f : Player → Player) : List Player :=
  ps.set i (f (ps.getD i default))

/-- GoFishGame.advance_turn. -/
def advance_turn (gm : GoFishGame) : GoFishGame :=
  { gm with current_player_idx := (gm.current_player_idx + 1) % gm.players.length }

/-- GoFishGame.check_game_over: the game ends exactly when every player holds
no cards (the deck is not consulted); returns the "continue?" flag. -/
def check_game_over (gm : GoFishGame) : Bool × GoFishGame :=
  if gm.players.all (fun p => p.hand.isEmpty) then (false, { gm with game_over := true })
  else (true, gm)

/-- The empty-hand draw at the top of play_turn: the current player holds no
cards and the deck is non-empty, so one card is drawn into the hand and books
are checked. -/
def empty_hand_draw (gm : GoFishGame) : GoFishGame :=
  match gm.deck with
  | [] => gm
  | c :: rest =>
      { gm with
          deck := rest,
          players := update_player_at
            (update_player_at gm.players gm.current_player_idx
              (fun p => { p with hand := p.hand ++ [c] }))
            gm.current_player_idx
            (fun p => (check_for_books p).2) }

/-- The names of every player other than the current one, in game order
(`[p.name for p in self.players if p != current_player]`; `!=` is object
identity in the source, i.e. position in the list). -/
def other_names (ps : List Player) (ci : Nat) : List String :=
  ((List.range ps.length).filter (fun i => decide (i ≠ ci))).map
    (fun i => (ps.getD i default).name)

/-- The hit branch of play_turn: positive knowledge update, transfer of every
card of the asked rank from the target to the current player, book check, no
turn advance.  (Python removes and re-adds the matching cards one at a time;
for players at distinct positions the bulk form below is the same.) -/
def resolve_hit (gm : GoFishGame) (ci tj : Nat) (target_name : String) (rank : Rank) :
    Bool × GoFishGame :=
  let matching := (gm.players.getD tj default).hand.filter (fun c => decide (c.rank = rank))
  let ps1 := update_player_at gm.players ci (fun p => update_knowledge p target_name rank true)
  let ps2 := update_player_at ps1 tj
    (fun p => { p with hand := matching.foldl remove_card p.hand })
  let ps3 := update_player_at ps2 ci (fun p => { p with hand := p.hand ++ matching })
  let ps4 := update_player_at ps3 ci (fun p => (check_for_books p).2)
  check_game_over { gm with players := ps4 }

/-- The miss ("Go Fish") branch of play_turn: negative knowledge update; with
a non-empty deck one card is drawn, and a self-draw match keeps the turn;
otherwise books are checked and the turn advances. -/
def resolve_miss (gm : GoFishGame) (ci : Nat) (target_name : String) (rank : Rank) :
    Bool × GoFishGame :=
  let ps1 := update_player_at gm.players ci (fun p => update_knowledge p target_name rank false)
  let gm1 := { gm with players := ps1 }
  match gm1.deck with
  | c :: rest =>
      let gm2 := { gm1 with
        deck := rest,
        players := update_player_at gm1.players ci (fun p => { p with hand := p.hand ++ [c] }) }
      if c.rank = rank then
        check_game_over { gm2 with
          players := update_player_at gm2.players ci (fun p => (check_for_books p).2) }
      else
        check_game_over (advance_turn { gm2 with
          players := update_player_at gm2.players ci (fun p => (check_for_books p).2) })
  | [] =>
      check_game_over (advance_turn { gm1 with
        players := update_player_at gm1.players ci (fun p => (check_for_books p).2) })

/-- GoFishGame.play_turn, returning (continue?, new state, new stream). -/
def play_turn (gm0 : GoFishGame) (g0 : Rng) : Bool × GoFishGame × Rng :=
  if gm0.game_over then (false, gm0, g0)
  else
    let gmt := { gm0 with turn_count := gm0.turn_count + 1 }
    let ci := gmt.current_player_idx
    let cur0 := gmt.players.getD ci default
    if cur0.hand.isEmpty && gmt.deck.isEmpty then
      let (b, gm1) := check_game_over (advance_turn gmt)
      (b, gm1, g0)
    else
      let gma := if cur0.hand.isEmpty then empty_hand_draw gmt else gmt
      let cur := gma.players.getD ci default
      let others := other_names gma.players ci
      if others.isEmpty then (false, { gma with game_over := true }, g0)
      else
        let (tname, g1) := cur.choose_player_to_ask others g0
        let tj := gma.players.findIdx (fun p => p.name == tname)
        let (rank?, g2) := cur.choose_rank_to_ask_for g1
        match rank? with
        | none =>
            let (b, gm1) := check_game_over (advance_turn gma)
            (b, gm1, g2)
        | some rank =>
            if ((gma.players.getD tj default).hand.filter
                  (fun c => decide (c.rank = rank))).isEmpty then
              let (b, gm1) := resolve_miss gma ci tname rank
              (b, gm1, g2)
            else
              let (b, gm1) := resolve_hit gma ci tj tname rank
              (b, gm1, g2)

/-- One step of the dealing loop in GoFishGame.setup: deal `initial_cards`
cards to player `i`, then check that player's hand for pre-formed books. -/
def deal_one (gm : GoFishGame) (i : Nat) : GoFishGame :=
  let (cards, rest) := draw_multiple gm.deck gm.initial_cards
  { gm with
      deck := rest,
      players := update_player_at
        (update_player_at gm.players i (fun p => { p with hand := p.hand ++ cards }))
        i (fun p => (check_for_books p).2) }

/-- GoFishGame.setup on a game whose deck already holds the shuffled order
(the shuffle itself is modelled by quantifying over permutations of the
standard deck). -/
def setup (gm : GoFishGame) : GoFishGame :=
  (List.range gm.players.length).foldl deal_one gm

/-- Player.get_score. -/
def get_score (p : Player) : Nat := p.books.length

/-- GoFishGame.get_winner: the empty list before the game is over, otherwise
every player with the maximal score. -/
def get_winner (gm : GoFishGame) : List Player :=
  if !gm.game_over then []
  else
    let max_score := (gm.players.map get_score).foldl Nat.max 0
    gm.players.filter (fun p => decide (get_score p = max_score))

/-- A freshly constructed player (Player.__init__ / MemoryPlayer.__init__):
empty hand, no books, empty knowledge stores. -/
def init_player (nm : String) (strat : Strategy) : Player :=
  { name := nm, hand := [], books := [], known_cards := [], strategy := strat,
    asked_ranks := [] }

/-- A freshly constructed game (GoFishGame.__init__) over the given shuffled
deck order. -/
def init_game (specs : List (String × Strategy)) (deck : List Card) (m : Nat) :
    GoFishGame :=
  { players := specs.map (fun e => init_player e.1 e.2), initial_cards := m,
    deck := deck, current_player_idx := 0, game_over := false, turn_count := 0 }

/-- Iterate play_turn, threading state and stream (the loop body of
GoFishGame.play_game). -/
def run_turns : Nat → GoFishGame × Rng → GoFishGame × Rng
  | 0, s => s
  | n + 1, s =>
      let r := play_turn s.1 s.2
      run_turns n (r.2.1, r.2.2)

/-- The boolean returned by the (n+1)-st call of play_turn in the play_game
loop started from `s`. -/
def turn_result (s : GoFishGame × Rng) (n : Nat) : Bool :=
  (play_turn (run_turns n s).1 (run_turns n s).2).1

/-- The play_game loop terminates from `s`: some call of play_turn returns
false. -/
def loop_ends (s : GoFishGame × Rng) : Prop :=
  ∃ n, turn_result s n = false

/-- States reachable by the engine from a fresh game over shuffled deck
`deck0`: the state right after setup, and everything play_turn (under any
behaviour of the random source) produces from a reachable state. -/
inductive ReachableFrom (specs : List (String × Strategy)) (deck0 : List Card) (m : Nat) :
    GoFishGame → Prop
  | start : ReachableFrom specs deck0 m (setup (init_game specs deck0 m))
  | step : ∀ gm g, ReachableFrom specs deck0 m gm →
      ReachableFrom specs deck0 m (play_turn gm g).2.1

/-! ### Basic lemmas about hands and books -/

theorem mem_dedup_first (l : List Rank) (x : Rank) : x ∈ dedup_first l ↔ x ∈ l := by
  induction l with
  | nil => simp [dedup_first]
  | cons r rs ih =>
      simp only [dedup_first, List.mem_cons, List.mem_filter, ih, decide_eq_true_eq]
      by_cases hx : x = r <;> simp [hx]

theorem nodup_dedup_first (l : List Rank) : (dedup_first l).Nodup := by
  induction l with
  | nil => simp [dedup_first]
  | cons r rs ih =>
      refine List.Nodup.cons ?_ (ih.filter _)
      intro hmem
      rcases List.mem_filter.1 hmem with ⟨-, hne⟩
      simp at hne

theorem count_rank_pos (cards : List Card) (r : Rank) :
    0 < count_rank cards r ↔ ∃ c ∈ cards, c.rank = r := by
  simp [count_rank, List.countP_pos_iff]

theorem mem_find_books (cards : List Card) (r : Rank) :
    r ∈ find_books cards ↔ count_rank cards r = 4 := by
  constructor
  · intro h
    rcases List.mem_filter.1 h with ⟨-, h4⟩
    simpa using h4
  · intro h4
    refine List.mem_filter.2 ⟨?_, by simpa using h4⟩
    have hp : 0 < count_rank cards r := by omega
    rcases (count_rank_pos cards r).1 hp with ⟨c, hc, hr⟩
    exact (mem_dedup_first _ _).2 (List.mem_map.2 ⟨c, hc, hr⟩)

theorem remove_cards_of_rank_fst (cards : List Card) (r : Rank) :
    (remove_cards_of_rank cards r).1 = cards.filter (fun c => decide (c.rank ≠ r)) := rfl

theorem remove_cards_of_rank_snd (cards : List Card) (r : Rank) :
    (remove_cards_of_rank cards r).2 = cards.filter (fun c => decide (c.rank = r)) := by
  simp only [remove_cards_of_rank, partition_cards]
  exact List.filter_congr (fun c _ => by by_cases h : c.rank = r <;> simp [h])

theorem remove_ranks_loop_eq (L : List Rank) :
    ∀ h : List Card, remove_ranks_loop L h = h.filter (fun c => decide (c.rank ∉ L)) := by
  induction L with
  | nil => intro h; simp [remove_ranks_loop]
  | cons r rs ih =>
      intro h
      simp only [remove_ranks_loop, remove_cards_of_rank_fst, ih, List.filter_filter]
      refine List.filter_congr (fun c _ => ?_)
      by_cases h1 : c.rank = r <;> by_cases h2 : c.rank ∈ rs <;> simp [h1, h2]

theorem count_rank_filter_other (cards : List Card) (q : Card → Bool) (r : Rank)
    (hq : ∀ c ∈ cards, c.rank = r → q c = true) :
    count_rank (cards.filter q) r = count_rank cards r := by
  simp only [count_rank, List.countP_filter]
  refine List.countP_congr (fun c hc => ?_)
  by_cases h1 : c.rank = r
  · simp [h1, hq c hc h1]
  · simp [h1]

theorem count_rank_filter_out (cards : List Card) (q : Card → Bool) (r : Rank)
    (hq : ∀ c ∈ cards, c.rank = r → q c = false) :
    count_rank (cards.filter q) r = 0 := by
  simp only [count_rank, List.countP_filter]
  rw [List.countP_eq_zero]
  intro c hc
  by_cases h1 : c.rank = r
  · simp [h1, hq c hc h1]
  · simp [h1]

theorem remove_books_loop_eq (L : List Rank) :
    ∀ (bs : List (List Card)) (cs : List Card), L.Nodup →
      remove_books_loop L (bs, cs) =
        (bs ++ L.map (fun r => cs.filter (fun c => decide (c.rank = r))),
         cs.filter (fun c => decide (c.rank ∉ L))) := by
  induction L with
  | nil => intro bs cs _; simp [remove_books_loop]
  | cons r rs ih =>
      intro bs cs hnd
      rcases List.nodup_cons.1 hnd with ⟨hr, hnd2⟩
      simp only [remove_books_loop]
      rw [ih _ _ hnd2]
      simp only [Prod.mk.injEq]
      refine ⟨?_, ?_⟩
      · have hmap : rs.map (fun x => List.filter (fun c => decide (c.rank = x))
            (List.filter (fun c => decide (c.rank ≠ r)) cs)) =
            rs.map (fun x => List.filter (fun c => decide (c.rank = x)) cs) := by
          refine List.map_congr_left (fun x hx => ?_)
          rw [List.filter_filter]
          refine List.filter_congr (fun c _ => ?_)
          have hxr : x ≠ r := fun hh => hr (hh ▸ hx)
          by_cases h1 : c.rank = x <;> simp [h1, hxr]
        rw [List.append_assoc, hmap]
        simp
      · rw [List.filter_filter]
        refine List.filter_congr (fun c _ => ?_)
        by_cases h1 : c.rank = r <;> by_cases h2 : c.rank ∈ rs <;> simp [h1, h2]

theorem nodup_find_books (cards : List Card) : (find_books cards).Nodup := by
  unfold find_books
  exact (nodup_dedup_first _).filter _

theorem remove_books_snd (cards : List Card) :
    (remove_books cards).2 = cards.filter (fun c => decide (count_rank cards c.rank ≠ 4)) := by
  rw [remove_books, remove_books_loop_eq _ _ _ (nodup_find_books cards)]
  simp only [List.nil_append]
  refine List.filter_congr (fun c _ => ?_)
  by_cases h : count_rank cards c.rank = 4
  · simp [h, (mem_find_books cards c.rank).2 h]
  · have : c.rank ∉ find_books cards := fun hm => h ((mem_find_books cards c.rank).1 hm)
    simp [h, this]

theorem remove_books_fst (cards : List Card) :
    (remove_books cards).1 =
      (find_books cards).map (fun r => cards.filter (fun c => decide (c.rank = r))) := by
  rw [remove_books, remove_books_loop_eq _ _ _ (nodup_find_books cards)]
  simp

theorem check_for_books_hand (p : Player) :
    (check_for_books p).2.hand =
      p.hand.filter (fun c => decide (count_rank p.hand c.rank ≠ 4)) := by
  simp only [check_for_books, remove_ranks_loop_eq]
  refine List.filter_congr (fun c _ => ?_)
  by_cases h : count_rank p.hand c.rank = 4
  · simp [h, (mem_find_books p.hand c.rank).2 h]
  · have : c.rank ∉ find_books p.hand := fun hm => h ((mem_find_books p.hand c.rank).1 hm)
    simp [h, this]

theorem check_for_books_books (p : Player) :
    (check_for_books p).2.books = p.books ++ find_books p.hand := rfl

theorem check_for_books_fst (p : Player) :
    (check_for_books p).1 = find_books p.hand := rfl

/-- C5 helper: the count of any rank after book removal is never 4. -/
theorem count_rank_after_remove_books (cards : List Card) (r : Rank) :
    count_rank (remove_books cards).2 r ≠ 4 := by
  rw [remove_books_snd]
  by_cases h : count_rank cards r = 4
  · rw [count_rank_filter_out]
    · omega
    · intro c _ hc
      simp [hc, h]
  · rw [count_rank_filter_other]
    · exact h
    · intro c _ hc
      simp [hc, h]

/-- Claim C5: for every hand, `Hand.remove_books` removes all and only the
cards of ranks present with count exactly 4 (the remaining hand is the
original filtered to the ranks whose count differs from 4), returns exactly
those books (for each book rank, its 4 cards), membership in `find_books` is
equivalent to having count exactly 4, afterwards no rank has count 4, and
`Player.check_for_books` performs the same extraction on the player's hand
while appending the found ranks to the player's book list. -/
theorem C5_book_extraction (cards : List Card) (p : Player) :
    (remove_books cards).2 =
      cards.filter (fun c => decide (count_rank cards c.rank ≠ 4)) ∧
    (remove_books cards).1 =
      (find_books cards).map (fun r => cards.filter (fun c => decide (c.rank = r))) ∧
    (∀ r : Rank, r ∈ find_books cards ↔ count_rank cards r = 4) ∧
    (∀ r : Rank, count_rank (remove_books cards).2 r ≠ 4) ∧
    (check_for_books p).1 = find_books p.hand ∧
    (check_for_books p).2.books = p.books ++ find_books p.hand ∧
    (check_for_books p).2.hand =
      p.hand.filter (fun c => decide (count_rank p.hand c.rank ≠ 4)) :=
  ⟨remove_books_snd cards, remove_books_fst cards, mem_find_books cards,
   count_rank_after_remove_books cards, check_for_books_fst p,
   check_for_books_books p, check_for_books_hand p⟩

/-! ### Claim C4: check_game_over -/

/-- Claim C4: `check_game_over` sets the game-over flag and returns false
(do not continue) exactly when every player holds zero cards — the deck is
not consulted — and in every other state it returns true and leaves the
state, in particular the flag, unchanged. -/
theorem C4_check_game_over (gm : GoFishGame) :
    ((check_game_over gm).1 = false ↔ ∀ p ∈ gm.players, p.hand = []) ∧
    ((∀ p ∈ gm.players, p.hand = []) →
      (check_game_over gm).2.game_over = true) ∧
    ((¬ ∀ p ∈ gm.players, p.hand = []) → (check_game_over gm).2 = gm) := by
  by_cases h : ∀ p ∈ gm.players, p.hand = []
  · have hall : gm.players.all (fun p => p.hand.isEmpty) = true :=
      List.all_eq_true.2 (fun p hp => List.isEmpty_iff.2 (h p hp))
    refine ⟨⟨fun _ => h, fun _ => ?_⟩, fun _ => ?_, fun hc => absurd h hc⟩
    · simp [check_game_over, hall]
    · simp [check_game_over, hall]
  · have hall : gm.players.all (fun p => p.hand.isEmpty) = false := by
      rcases Bool.eq_false_or_eq_true (gm.players.all (fun p => p.hand.isEmpty)) with hc | hc
      · exact absurd (fun p hp => List.isEmpty_iff.1 (List.all_eq_true.1 hc p hp)) h
      · exact hc
    refine ⟨?_, fun hc => absurd hc h, fun _ => ?_⟩
    · simp [check_game_over, hall, h]
    · simp [check_game_over, hall]

/-! ### Claim C10: get_winner -/

theorem foldl_max_mem : ∀ (xs : List Nat) (x : Nat),
    xs.foldl Nat.max x = x ∨ xs.foldl Nat.max x ∈ xs := by
  intro xs
  induction xs with
  | nil => intro x; left; rfl
  | cons y ys ih =>
      intro x
      rw [List.foldl_cons]
      rcases ih (Nat.max x y) with h | h
      · rw [h]
        rcases Nat.le_total x y with hxy | hxy
        · right
          have hm : Nat.max x y = y := Nat.max_eq_right hxy
          rw [hm]
          exact List.mem_cons_self _ _
        · left
          exact Nat.max_eq_left hxy
      · right
        exact List.mem_cons_of_mem _ h

theorem le_foldl_max : ∀ (xs : List Nat) (x : Nat), x ≤ xs.foldl Nat.max x := by
  intro xs
  induction xs with
  | nil => intro x; exact Nat.le_refl x
  | cons y ys ih =>
      intro x
      exact Nat.le_trans (Nat.le_max_left x y) (ih (Nat.max x y))

theorem foldl_max_ge_mem : ∀ (xs : List Nat) (x y : Nat), y ∈ xs → y ≤ xs.foldl Nat.max x := by
  intro xs
  induction xs with
  | nil => intro x y hy; cases hy
  | cons z zs ih =>
      intro x y hy
      rcases List.mem_cons.1 hy with h | h
      · subst h
        exact Nat.le_trans (Nat.le_max_right x y) (le_foldl_max zs _)
      · exact ih _ y h

/-- Claim C10: on a game whose game-over flag is false `get_winner` returns
the empty list (the winner computation is a pure function, so no state is
modified and nothing is raised); once the flag is true and there is at least
one player, the returned maximum-score winner set is non-empty and consists
of players of the game whose score is maximal. -/
theorem C10_get_winner (gm1 gm2 : GoFishGame)
    (h1 : gm1.game_over = false)
    (h2 : gm2.game_over = true) (hne : gm2.players ≠ []) :
    get_winner gm1 = [] ∧
    get_winner gm2 ≠ [] ∧
    (∀ p ∈ get_winner gm2, p ∈ gm2.players ∧
      ∀ q ∈ gm2.players, get_score q ≤ get_score p) := by
  refine ⟨by simp [get_winner, h1], ?_, ?_⟩
  · have hmax : ∃ p ∈ gm2.players,
        get_score p = (gm2.players.map get_score).foldl Nat.max 0 := by
      rcases foldl_max_mem (gm2.players.map get_score) 0 with h | h
      · obtain ⟨p, ps, hps⟩ : ∃ p ps, gm2.players = p :: ps := by
          cases hq : gm2.players with
          | nil => exact absurd hq hne
          | cons a l => exact ⟨a, l, rfl⟩
        have hmem : get_score p ∈ gm2.players.map get_score := by
          rw [hps]; simp
        have hle : get_score p ≤ (gm2.players.map get_score).foldl Nat.max 0 :=
          foldl_max_ge_mem _ 0 _ hmem
        refine ⟨p, by rw [hps]; exact List.mem_cons_self _ _, ?_⟩
        omega
      · rcases List.mem_map.1 h with ⟨p, hp, hsc⟩
        exact ⟨p, hp, hsc⟩
    rcases hmax with ⟨p, hp, hsc⟩
    have hwin : p ∈ get_winner gm2 := by
      simp only [get_winner, h2, Bool.not_true, Bool.false_eq_true, if_false]
      exact List.mem_filter.2 ⟨hp, by simp [hsc]⟩
    intro hemp
    rw [hemp] at hwin
    cases hwin
  · intro p hp
    simp only [get_winner, h2, Bool.not_true, Bool.false_eq_true, if_false] at hp
    rcases List.mem_filter.1 hp with ⟨hmem, hsc⟩
    simp only [decide_eq_true_eq] at hsc
    refine ⟨hmem, fun q hq => ?_⟩
    have hq' : get_score q ≤ (gm2.players.map get_score).foldl Nat.max 0 :=
      foldl_max_ge_mem _ 0 _ (List.mem_map.2 ⟨q, hq, rfl⟩)
    rw [hsc]
    exact hq'

/-- Witness for C10 at a concrete pair of games. -/
theorem C10_get_winner_witness :
    get_winner (init_game [("A", .random), ("B", .smart)] standard_deck 7) = [] ∧
    get_winner { init_game [("A", .random), ("B", .smart)] standard_deck 7 with
        game_over := true } ≠ [] ∧
    (∀ p ∈ get_winner { init_game [("A", .random), ("B", .smart)] standard_deck 7 with
        game_over := true },
      p ∈ ({ init_game [("A", .random), ("B", .smart)] standard_deck 7 with
        game_over := true } : GoFishGame).players ∧
      ∀ q ∈ ({ init_game [("A", .random), ("B", .smart)] standard_deck 7 with
        game_over := true } : GoFishGame).players, get_score q ≤ get_score p) :=
  C10_get_winner _ _ rfl rfl (by decide)

/-! ### Claim C7: the Smart/Memory rank choice -/

theorem foldl_max_init : ∀ (l : List Nat) (x : Nat),
    l.foldl Nat.max x = Nat.max x (l.foldl Nat.max 0) := by
  intro l
  induction l with
  | nil =>
      intro x
      have hx : Nat.max x 0 = x := Nat.max_eq_left (Nat.zero_le x)
      simp [hx]
  | cons y ys ih =>
      intro x
      rw [List.foldl_cons, List.foldl_cons, ih (Nat.max x y), ih (Nat.max 0 y)]
      have hy : Nat.max 0 y = y := Nat.max_eq_right (Nat.zero_le y)
      rw [hy]
      exact Nat.max_assoc x y _

theorem length_insert_desc (f : Rank → Nat) (r : Rank) :
    ∀ l : List Rank, (insert_desc f r l).length = l.length + 1 := by
  intro l
  induction l with
  | nil => rfl
  | cons x xs ih =>
      rw [insert_desc]
      by_cases h : f x > f r
      · simp only [h, if_true, List.length_cons, ih]
      · simp only [h, if_false, List.length_cons]

theorem length_sort_ranks_desc (f : Rank → Nat) :
    ∀ l : List Rank, (sort_ranks_desc f l).length = l.length := by
  intro l
  induction l with
  | nil => rfl
  | cons x xs ih =>
      rw [sort_ranks_desc, length_insert_desc, ih, List.length_cons]

/-- The head of the stable descending sort is the first element (in original
order) attaining the maximal key. -/
theorem sort_ranks_desc_head (f : Rank → Nat) :
    ∀ keys : List Rank,
      (sort_ranks_desc f keys).head? =
        keys.find? (fun r => decide (f r = (keys.map f).foldl Nat.max 0)) := by
  intro keys
  induction keys with
  | nil => rfl
  | cons r rs ih =>
      have hM : ((r :: rs).map f).foldl Nat.max 0 =
          Nat.max (f r) ((rs.map f).foldl Nat.max 0) := by
        rw [List.map_cons, List.foldl_cons, foldl_max_init]
        have h0 : Nat.max 0 (f r) = f r := Nat.max_eq_right (Nat.zero_le _)
        rw [h0]
      rw [sort_ranks_desc]
      cases hs : sort_ranks_desc f rs with
      | nil =>
          have hrs : rs = [] := by
            have hlen := length_sort_ranks_desc f rs
            rw [hs] at hlen
            exact List.eq_nil_of_length_eq_zero hlen.symm
          subst hrs
          have hfr : Nat.max (f r) 0 = f r := Nat.max_eq_left (Nat.zero_le _)
          simp [insert_desc, List.find?_cons, hM, hfr]
      | cons y ys =>
          rw [hs] at ih
          have hy : rs.find? (fun x => decide (f x = (rs.map f).foldl Nat.max 0)) = some y := by
            rw [← ih]; rfl
          have hfy : f y = (rs.map f).foldl Nat.max 0 := by
            have := List.find?_some hy
            simpa using this
          rw [insert_desc]
          by_cases hgt : f y > f r
          · have hmax : Nat.max (f r) ((rs.map f).foldl Nat.max 0) =
                (rs.map f).foldl Nat.max 0 := by
              rw [← hfy]
              exact Nat.max_eq_right (Nat.le_of_lt hgt)
            simp only [hgt, if_true, List.head?_cons, hM, hmax]
            rw [List.find?_cons_of_neg]
            · exact hy.symm
            · simp only [decide_eq_true_eq]
              rw [← hfy]
              omega
          · have hle : (rs.map f).foldl Nat.max 0 ≤ f r := by
              rw [← hfy]; omega
            have hmax : Nat.max (f r) ((rs.map f).foldl Nat.max 0) = f r :=
              Nat.max_eq_left hle
            simp only [hgt, if_false, List.head?_cons, hM, hmax]
            rw [List.find?_cons_of_pos]
            simp

/-- Modelled from the spec's words for the Greedy (and Memory) rank choice:
the rank with the highest count of copies currently held, ties broken by the
first-encountered order of a single pass over the hand (insertion order of
first occurrence).  Used only as the comparison point for claim C7. -/
def spec_first_max_rank (cards : List Card) : Option Rank :=
  let keys := dedup_first (cards.map Card.rank)
  let m := (keys.map (fun r => count_rank cards r)).foldl Nat.max 0
  keys.find? (fun r => decide (count_rank cards r = m))

/-- Claim C7: for every hand, the SmartPlayer rank choice coincides with the
spec's description — the first rank (in first-occurrence order over the hand)
whose held count is maximal — and the MemoryPlayer rank selection is
identical to the SmartPlayer one.  Moreover on a non-empty hand the chosen
rank exists, is a rank of the hand, and its count is maximal among the
hand's ranks. -/
theorem C7_greedy_rank_choice (p : Player) :
    SmartPlayer.choose_rank_to_ask_for p = spec_first_max_rank p.hand ∧
    MemoryPlayer.choose_rank_to_ask_for p = SmartPlayer.choose_rank_to_ask_for p ∧
    (p.hand ≠ [] → ∃ r : Rank,
      SmartPlayer.choose_rank_to_ask_for p = some r ∧
      r ∈ get_ranks p.hand ∧
      ∀ x ∈ get_ranks p.hand, count_rank p.hand x ≤ count_rank p.hand r) := by
  have hmain : SmartPlayer.choose_rank_to_ask_for p = spec_first_max_rank p.hand := by
    unfold SmartPlayer.choose_rank_to_ask_for spec_first_max_rank
    by_cases h : p.hand.isEmpty
    · have hnil : p.hand = [] := List.isEmpty_iff.1 h
      simp [hnil, dedup_first]
    · simp only [h, Bool.false_eq_true, if_false]
      exact sort_ranks_desc_head _ _
  refine ⟨hmain, rfl, fun hne => ?_⟩
  have hkeys : dedup_first (p.hand.map Card.rank) ≠ [] := by
    cases hh : p.hand with
    | nil => exact absurd hh hne
    | cons c cs => simp [hh, dedup_first]
  set keys := dedup_first (p.hand.map Card.rank) with hkeysdef
  set m := (keys.map (fun r => count_rank p.hand r)).foldl Nat.max 0 with hmdef
  have hex : ∃ x ∈ keys, (fun r => decide (count_rank p.hand r = m)) x = true := by
    rcases foldl_max_mem (keys.map (fun r => count_rank p.hand r)) 0 with h0 | hmem
    · obtain ⟨k, ks, hk⟩ : ∃ k ks, keys = k :: ks := by
        cases hq : keys with
        | nil => exact absurd hq hkeys
        | cons a l => exact ⟨a, l, rfl⟩
      have hle : count_rank p.hand k ≤ m := by
        refine foldl_max_ge_mem _ 0 _ ?_
        rw [hk]; simp
      have : count_rank p.hand k = m := by rw [← hmdef] at h0; omega
      exact ⟨k, by rw [hk]; exact List.mem_cons_self _ _, by simpa using this⟩
    · rcases List.mem_map.1 hmem with ⟨k, hkmem, hkeq⟩
      exact ⟨k, hkmem, by simpa using hkeq⟩
  have hsome : (keys.find? (fun r => decide (count_rank p.hand r = m))).isSome = true :=
    List.find?_isSome.2 hex
  obtain ⟨r, hr⟩ := Option.isSome_iff_exists.1 hsome
  refine ⟨r, ?_, ?_, ?_⟩
  · rw [hmain]
    unfold spec_first_max_rank
    exact hr
  · exact List.mem_of_find?_eq_some hr
  · intro x hx
    have hxle : count_rank p.hand x ≤ m :=
      foldl_max_ge_mem _ 0 _ (List.mem_map.2 ⟨x, hx, rfl⟩)
    have hreq : count_rank p.hand r = m := by
      have := List.find?_some hr
      simpa using this
    omega

/-! ### Claim C8: the Smart (Greedy) opponent choice -/

theorem find?_first {α : Type} (p : α → Bool) :
    ∀ (l : List α) (x : α), l.find? p = some x →
      ∃ pre post, l = pre ++ x :: post ∧ p x = true ∧ ∀ y ∈ pre, p y = false := by
  intro l
  induction l with
  | nil => intro x h; cases h
  | cons a t ih =>
      intro x h
      by_cases ha : p a = true
      · rw [List.find?_cons_of_pos _ ha] at h
        cases h
        exact ⟨[], t, rfl, ha, by intro y hy; cases hy⟩
      · rw [List.find?_cons_of_neg _ ha] at h
        rcases ih x h with ⟨pre, post, hsplit, hx, hpre⟩
        refine ⟨a :: pre, post, by rw [hsplit]; rfl, hx, ?_⟩
        intro y hy
        rcases List.mem_cons.1 hy with hy | hy
        · subst hy
          exact Bool.eq_false_iff.2 ha
        · exact hpre y hy

/-- The concrete scenario of the spec: a Greedy player holding two 7s who has
recorded that "Bob" holds rank 7. -/
def greedy_bob_example : Player :=
  { name := "Greedy", hand := [⟨.r7, .hearts⟩, ⟨.r7, .diamonds⟩], books := [],
    known_cards := [("Bob", [.r7])], strategy := .smart, asked_ranks := [] }

/-- Claim C8: a SmartPlayer whose knowledge store records that some opponent
in the supplied list holds the rank it would ask for returns the first such
opponent in list order, leaving the random stream untouched; when no listed
opponent is known to hold that rank the choice is the random one over the
whole list.  In particular the Greedy player of the spec's scenario, who has
recorded that "Bob" holds rank 7, deterministically returns "Bob" from
["Alice", "Bob", "Carol"] under every state of the random source. -/
theorem C8_greedy_player_choice
    (p q : Player) (names nq : List String) (g gq : Rng) (rank rq : Rank)
    (hp : p.strategy = .smart) (hq : q.strategy = .smart)
    (hrank : SmartPlayer.choose_rank_to_ask_for p = some rank)
    (hknown : ∃ n ∈ names, ∃ s, lookup_set p.known_cards n = some s ∧ rank ∈ s)
    (hqrank : SmartPlayer.choose_rank_to_ask_for q = some rq)
    (hunknown : ∀ n ∈ nq, ∀ s, lookup_set q.known_cards n = some s → rq ∉ s) :
    (∃ pre n0 post, names = pre ++ n0 :: post ∧
        p.choose_player_to_ask names g = (n0, g) ∧
        (∃ s, lookup_set p.known_cards n0 = some s ∧ rank ∈ s) ∧
        (∀ n1 ∈ pre, ¬ ∃ s, lookup_set p.known_cards n1 = some s ∧ rank ∈ s)) ∧
    q.choose_player_to_ask nq gq = random_choice nq gq ∧
    (∀ g2 : Rng, greedy_bob_example.choose_player_to_ask ["Alice", "Bob", "Carol"] g2 =
      ("Bob", g2)) := by
  refine ⟨?_, ?_, fun g2 => rfl⟩
  · have hsome : (names.find? (fun n =>
        match lookup_set p.known_cards n with
        | some s => decide (rank ∈ s)
        | none => false)).isSome = true := by
      refine List.find?_isSome.2 ?_
      rcases hknown with ⟨n, hn, s, hs, hr⟩
      exact ⟨n, hn, by rw [hs]; simpa using hr⟩
    obtain ⟨n0, hn0⟩ := Option.isSome_iff_exists.1 hsome
    rcases find?_first _ _ _ hn0 with ⟨pre, post, hsplit, hx, hpre⟩
    refine ⟨pre, n0, post, hsplit, ?_, ?_, ?_⟩
    · simp only [Player.choose_player_to_ask, hp, first_known, hrank, hn0]
    · cases hls : lookup_set p.known_cards n0 with
      | none => rw [hls] at hx; cases hx
      | some s =>
          rw [hls] at hx
          exact ⟨s, rfl, by simpa using hx⟩
    · intro n1 h1
      have hfalse := hpre n1 h1
      rintro ⟨s, hs, hr⟩
      rw [hs] at hfalse
      simp at hfalse
      exact hfalse hr
  · have hnone : first_known q.known_cards nq (SmartPlayer.choose_rank_to_ask_for q) = none := by
      rw [hqrank]
      unfold first_known
      rw [List.find?_eq_none]
      intro n hn
      cases hls : lookup_set q.known_cards n with
      | none => simp
      | some s =>
          have := hunknown n hn s hls
          simpa using this
    simp only [Player.choose_player_to_ask, hq, hnone]

/-- A smart player with an empty knowledge store, used in the C8 witness. -/
def plain_smart_q : Player :=
  { name := "Q", hand := [⟨.r7, .hearts⟩], books := [], known_cards := [],
    strategy := .smart, asked_ranks := [] }

/-- Witness for C8 at the spec's own scenario. -/
theorem C8_greedy_player_choice_witness :
    (∃ pre n0 post, (["Alice", "Bob", "Carol"] : List String) = pre ++ n0 :: post ∧
        greedy_bob_example.choose_player_to_ask ["Alice", "Bob", "Carol"]
          (fun _ => 0) = (n0, fun _ => 0) ∧
        (∃ s, lookup_set greedy_bob_example.known_cards n0 = some s ∧ Rank.r7 ∈ s) ∧
        (∀ n1 ∈ pre, ¬ ∃ s,
          lookup_set greedy_bob_example.known_cards n1 = some s ∧ Rank.r7 ∈ s)) ∧
    plain_smart_q.choose_player_to_ask ["X"] (fun _ => 0) =
      random_choice ["X"] (fun _ => 0) ∧
    (∀ g2 : Rng, greedy_bob_example.choose_player_to_ask ["Alice", "Bob", "Carol"] g2 =
      ("Bob", g2)) :=
  C8_greedy_player_choice greedy_bob_example plain_smart_q
    ["Alice", "Bob", "Carol"] ["X"] (fun _ => 0) (fun _ => 0) .r7 .r7 rfl rfl rfl
    ⟨"Bob", by simp, [.r7], rfl, by simp⟩ rfl
    (by intro n hn s hs; simp [lookup_set, plain_smart_q] at hs)

/-! ### Structural lemmas about the engine's operations -/

theorem length_update_player_at (ps : List Player) (i : Nat) (f : Player → Player) :
    (update_player_at ps i f).length = ps.length :=
  List.length_set ps i _

theorem check_game_over_players (gm : GoFishGame) :
    (check_game_over gm).2.players = gm.players := by
  unfold check_game_over
  split <;> rfl

theorem check_game_over_idx (gm : GoFishGame) :
    (check_game_over gm).2.current_player_idx = gm.current_player_idx := by
  unfold check_game_over
  split <;> rfl

theorem check_game_over_deck (gm : GoFishGame) :
    (check_game_over gm).2.deck = gm.deck := by
  unfold check_game_over
  split <;> rfl

theorem advance_turn_players (gm : GoFishGame) : (advance_turn gm).players = gm.players := rfl

theorem advance_turn_idx (gm : GoFishGame) :
    (advance_turn gm).current_player_idx = (gm.current_player_idx + 1) % gm.players.length := rfl

theorem empty_hand_draw_idx (gm : GoFishGame) :
    (empty_hand_draw gm).current_player_idx = gm.current_player_idx := by
  unfold empty_hand_draw
  cases gm.deck <;> rfl

theorem empty_hand_draw_players_length (gm : GoFishGame) :
    (empty_hand_draw gm).players.length = gm.players.length := by
  unfold empty_hand_draw
  cases gm.deck with
  | nil => rfl
  | cons c rest => simp [length_update_player_at]

theorem resolve_hit_idx (gm : GoFishGame) (ci tj : Nat) (tn : String) (rank : Rank) :
    (resolve_hit gm ci tj tn rank).2.current_player_idx = gm.current_player_idx := by
  unfold resolve_hit
  rw [check_game_over_idx]

theorem resolve_hit_players_length (gm : GoFishGame) (ci tj : Nat) (tn : String) (rank : Rank) :
    (resolve_hit gm ci tj tn rank).2.players.length = gm.players.length := by
  unfold resolve_hit
  rw [check_game_over_players]
  simp [length_update_player_at]

theorem resolve_miss_idx (gm : GoFishGame) (ci : Nat) (tn : String) (rank : Rank) :
    (resolve_miss gm ci tn rank).2.current_player_idx =
      match gm.deck with
      | c :: _ =>
          if c.rank = rank then gm.current_player_idx
          else (gm.current_player_idx + 1) % gm.players.length
      | [] => (gm.current_player_idx + 1) % gm.players.length := by
  unfold resolve_miss
  cases gm.deck with
  | nil =>
      rw [check_game_over_idx, advance_turn_idx]
      simp [length_update_player_at]
  | cons c rest =>
      by_cases h : c.rank = rank
      · simp only [h, if_true]
        rw [check_game_over_idx]
      · simp only [h, if_false]
        rw [check_game_over_idx, advance_turn_idx]
        simp [length_update_player_at]

/-- The state of play_turn after the turn-count increment and the possible
empty-hand draw, before the ask is resolved. -/
def pre_ask_state (gm : GoFishGame) : GoFishGame :=
  let gmt := { gm with turn_count := gm.turn_count + 1 }
  if (gmt.players.getD gmt.current_player_idx default).hand.isEmpty then
    empty_hand_draw gmt
  else gmt

theorem pre_ask_state_idx (gm : GoFishGame) :
    (pre_ask_state gm).current_player_idx = gm.current_player_idx := by
  unfold pre_ask_state
  dsimp only
  split
  · rw [empty_hand_draw_idx]
  · rfl

theorem pre_ask_state_players_length (gm : GoFishGame) :
    (pre_ask_state gm).players.length = gm.players.length := by
  unfold pre_ask_state
  dsimp only
  split
  · rw [empty_hand_draw_players_length]
  · rfl

/-- Unfolding of play_turn on a non-terminal state that does not take the
skip branch (current player with cards, or a non-empty deck): the turn
proceeds through the possible empty-hand draw to the ask resolution. -/
theorem play_turn_eq (gm0 : GoFishGame) (g0 : Rng)
    (hover : gm0.game_over = false)
    (hskip : ((gm0.players.getD gm0.current_player_idx default).hand.isEmpty &&
        gm0.deck.isEmpty) = false) :
    play_turn gm0 g0 =
      (if (other_names (pre_ask_state gm0).players gm0.current_player_idx).isEmpty then
        (false, { pre_ask_state gm0 with game_over := true }, g0)
      else
        let pr := Player.choose_player_to_ask
          ((pre_ask_state gm0).players.getD gm0.current_player_idx default)
          (other_names (pre_ask_state gm0).players gm0.current_player_idx) g0
        let tj := (pre_ask_state gm0).players.findIdx (fun p => p.name == pr.1)
        let rr := Player.choose_rank_to_ask_for
          ((pre_ask_state gm0).players.getD gm0.current_player_idx default) pr.2
        match rr.1 with
        | none =>
            ((check_game_over (advance_turn (pre_ask_state gm0))).1,
             (check_game_over (advance_turn (pre_ask_state gm0))).2, rr.2)
        | some rank =>
            if (((pre_ask_state gm0).players.getD tj default).hand.filter
                  (fun c => decide (c.rank = rank))).isEmpty then
              ((resolve_miss (pre_ask_state gm0) gm0.current_player_idx pr.1 rank).1,
               (resolve_miss (pre_ask_state gm0) gm0.current_player_idx pr.1 rank).2, rr.2)
            else
              ((resolve_hit (pre_ask_state gm0) gm0.current_player_idx tj pr.1 rank).1,
               (resolve_hit (pre_ask_state gm0) gm0.current_player_idx tj pr.1 rank).2,
               rr.2)) := by
  unfold play_turn pre_ask_state
  rw [hover]
  dsimp only
  rw [hskip]
  simp only [Bool.false_eq_true, if_false]

/-- Claim C3: whenever play_turn on a non-terminal game reaches the point of
asking an opponent (`tname`) for a rank: if the target holds at least one
card of that rank (hit), or if the ask misses and the card then drawn from a
non-empty deck has the asked rank (self-draw match), the current player index
is unchanged on return; in every other miss outcome (different drawn rank,
or empty deck) it becomes (old index + 1) mod player count. -/
theorem C3_turn_advancement (gm0 : GoFishGame) (g0 g1 g2 : Rng)
    (tname : String) (rank : Rank)
    (hover : gm0.game_over = false)
    (hskip : ((gm0.players.getD gm0.current_player_idx default).hand.isEmpty &&
        gm0.deck.isEmpty) = false)
    (hothers : (other_names (pre_ask_state gm0).players gm0.current_player_idx).isEmpty
        = false)
    (htname : Player.choose_player_to_ask
        ((pre_ask_state gm0).players.getD gm0.current_player_idx default)
        (other_names (pre_ask_state gm0).players gm0.current_player_idx) g0 = (tname, g1))
    (hrank : Player.choose_rank_to_ask_for
        ((pre_ask_state gm0).players.getD gm0.current_player_idx default) g1 =
        (some rank, g2)) :
    (play_turn gm0 g0).2.1.current_player_idx =
      if (((pre_ask_state gm0).players.getD
            ((pre_ask_state gm0).players.findIdx (fun p => p.name == tname))
            default).hand.filter (fun c => decide (c.rank = rank))).isEmpty = false then
        gm0.current_player_idx
      else
        match (pre_ask_state gm0).deck with
        | c :: _ =>
            if c.rank = rank then gm0.current_player_idx
            else (gm0.current_player_idx + 1) % gm0.players.length
        | [] => (gm0.current_player_idx + 1) % gm0.players.length := by
  rw [play_turn_eq gm0 g0 hover hskip]
  simp only [hothers, Bool.false_eq_true, if_false, htname, hrank]
  cases hE : (((pre_ask_state gm0).players.getD
      ((pre_ask_state gm0).players.findIdx (fun p => p.name == tname))
      default).hand.filter (fun c => decide (c.rank = rank))).isEmpty with
  | true =>
      simp only [hE, if_true, Bool.true_eq_false, if_false]
      rw [resolve_miss_idx]
      simp only [pre_ask_state_idx, pre_ask_state_players_length]
  | false =>
      simp only [hE, Bool.false_eq_true, if_false]
      rw [resolve_hit_idx, pre_ask_state_idx]
      simp

/-- A tiny concrete non-terminal game used as the C3 witness: player A holds
one 2, player B holds one 3, the deck is empty. -/
def c3_example_game : GoFishGame :=
  { players :=
      [{ name := "A", hand := [⟨.r2, .hearts⟩], books := [], known_cards := [],
         strategy := .random, asked_ranks := [] },
       { name := "B", hand := [⟨.r3, .hearts⟩], books := [], known_cards := [],
         strategy := .random, asked_ranks := [] }],
    initial_cards := 0, deck := [], current_player_idx := 0, game_over := false,
    turn_count := 0 }

/-- Witness for C3 at a concrete ask (A asks B for rank 2, misses, deck
empty: the turn advances). -/
theorem C3_turn_advancement_witness :
    (play_turn c3_example_game (fun _ => 0)).2.1.current_player_idx =
      if (((pre_ask_state c3_example_game).players.getD
            ((pre_ask_state c3_example_game).players.findIdx (fun p => p.name == "B"))
            default).hand.filter (fun c => decide (c.rank = Rank.r2))).isEmpty = false then
        c3_example_game.current_player_idx
      else
        match (pre_ask_state c3_example_game).deck with
        | c :: _ =>
            if c.rank = Rank.r2 then c3_example_game.current_player_idx
            else (c3_example_game.current_player_idx + 1) % c3_example_game.players.length
        | [] =>
            (c3_example_game.current_player_idx + 1) % c3_example_game.players.length :=
  C3_turn_advancement c3_example_game (fun _ => 0) (fun _ => 0) (fun _ => 0) "B" .r2
    rfl rfl rfl rfl rfl

/-! ### Claim C1: conservation of cards — measure bookkeeping -/

/-- The per-player contribution to the card-conservation measure: cards in
hand plus 4 per completed book. -/
def player_measure (p : Player) : Nat := p.hand.length + 4 * p.books.length

/-- Sum of the player measures. -/
def psum (ps : List Player) : Nat := (ps.map player_measure).sum

theorem countP_add_countP_not (l : List Card) (p : Card → Bool) :
    l.countP p + l.countP (fun a => ! p a) = l.length := by
  induction l with
  | nil => rfl
  | cons a t ih =>
      by_cases h : p a <;> simp [List.countP_cons, h] <;> omega

theorem length_filter_add_not (l : List Card) (p : Card → Bool) :
    (l.filter p).length + (l.filter (fun a => ! p a)).length = l.length := by
  rw [← List.countP_eq_length_filter, ← List.countP_eq_length_filter]
  exact countP_add_countP_not l p

theorem remove_ranks_loop_length (L : List Rank) :
    ∀ cards : List Card, L.Nodup → (∀ r ∈ L, count_rank cards r = 4) →
      (remove_ranks_loop L cards).length + 4 * L.length = cards.length := by
  induction L with
  | nil => intro cards _ _; simp [remove_ranks_loop]
  | cons r rs ih =>
      intro cards hnd h4
      rcases List.nodup_cons.1 hnd with ⟨hr, hnd2⟩
      rw [remove_ranks_loop, remove_cards_of_rank_fst]
      have hcount : ∀ rx ∈ rs,
          count_rank (cards.filter (fun c => decide (c.rank ≠ r))) rx = 4 := by
        intro rx h2
        rw [count_rank_filter_other]
        · exact h4 rx (List.mem_cons_of_mem _ h2)
        · intro c _ hc
          have hne : rx ≠ r := fun hh => hr (hh ▸ h2)
          simp [hc, hne]
      have hcfg : cards.filter (fun c => ! decide (c.rank = r)) =
          cards.filter (fun c => decide (c.rank ≠ r)) :=
        List.filter_congr (fun c _ => by by_cases h : c.rank = r <;> simp [h])
      have h4r : (cards.filter (fun c => decide (c.rank = r))).length = 4 := by
        rw [← List.countP_eq_length_filter]
        exact h4 r (List.mem_cons_self _ _)
      have hsplit := length_filter_add_not cards (fun c => decide (c.rank = r))
      rw [hcfg, h4r] at hsplit
      have hih := ih (cards.filter (fun c => decide (c.rank ≠ r))) hnd2 hcount
      simp only [List.length_cons]
      omega

theorem check_for_books_measure (p : Player) :
    player_measure (check_for_books p).2 = player_measure p := by
  unfold player_measure check_for_books
  dsimp only
  rw [List.length_append]
  have h := remove_ranks_loop_length (find_books p.hand) p.hand (nodup_find_books p.hand)
    (fun r hr => (mem_find_books p.hand r).1 hr)
  omega

theorem getD_set_self (ps : List Player) (i : Nat) (p : Player) (hi : i < ps.length) :
    (ps.set i p).getD i default = p := by
  rw [List.getD_eq_getElem?_getD, List.getElem?_set]
  simp [hi]

theorem getD_set_other (ps : List Player) (i j : Nat) (p : Player) (hij : i ≠ j) :
    (ps.set i p).getD j default = ps.getD j default := by
  rw [List.getD_eq_getElem?_getD, List.getElem?_set,
    List.getD_eq_getElem?_getD]
  simp [hij]

theorem map_sum_set (f : Player → Nat) :
    ∀ (ps : List Player) (i : Nat) (p : Player), i < ps.length →
      ((ps.set i p).map f).sum + f (ps.getD i default) = (ps.map f).sum + f p := by
  intro ps
  induction ps with
  | nil => intro i p hi; simp at hi
  | cons q t ih =>
      intro i p hi
      cases i with
      | zero => simp; omega
      | succ n =>
          simp only [List.set, List.map_cons, List.sum_cons, List.getD_cons_succ]
          have := ih n p (by simpa using hi)
          omega

theorem map_sum_update_player (g : Player → Nat) (ps : List Player) (i : Nat)
    (f : Player → Player) (hi : i < ps.length) :
    ((update_player_at ps i f).map g).sum + g (ps.getD i default) =
      (ps.map g).sum + g (f (ps.getD i default)) :=
  map_sum_set g ps i _ hi

theorem psum_update_of_measure_eq (ps : List Player) (i : Nat) (f : Player → Player)
    (hi : i < ps.length) (hf : ∀ p, player_measure (f p) = player_measure p) :
    psum (update_player_at ps i f) = psum ps := by
  have h := map_sum_update_player player_measure ps i f hi
  rw [hf] at h
  unfold psum
  omega

theorem update_knowledge_measure (p : Player) (n : String) (r : Rank) (b : Bool) :
    player_measure (update_knowledge p n r b) = player_measure p := rfl

theorem update_knowledge_hand (p : Player) (n : String) (r : Rank) (b : Bool) :
    (update_knowledge p n r b).hand = p.hand := rfl

theorem foldl_remove_card_cons_of_ne (a : Card) :
    ∀ (L : List Card) (t : List Card), (∀ c ∈ L, c ≠ a) →
      L.foldl remove_card (a :: t) = a :: L.foldl remove_card t := by
  intro L
  induction L with
  | nil => intro t _; rfl
  | cons c cs ih =>
      intro t hL
      have hca : c ≠ a := hL c (List.mem_cons_self _ _)
      have hstep : remove_card (a :: t) c = a :: remove_card t c := by
        rw [remove_card]
        rw [if_neg (fun h => hca h.symm)]
      rw [List.foldl_cons, hstep, List.foldl_cons]
      exact ih (remove_card t c) (fun x hx => hL x (List.mem_cons_of_mem _ hx))

/-- Removing, one by one, every card matching `q` from a hand leaves exactly
the cards not matching `q` (the bulk form of the transfer loop in the hit
branch of play_turn). -/
theorem foldl_remove_card_filter (q : Card → Bool) :
    ∀ h : List Card, (h.filter q).foldl remove_card h = h.filter (fun c => ! q c) := by
  intro h
  induction h with
  | nil => rfl
  | cons a t ih =>
      by_cases hq : q a
      · rw [List.filter_cons_of_pos hq, List.foldl_cons]
        have hstep : remove_card (a :: t) a = t := by
          rw [remove_card, if_pos rfl]
        rw [hstep, ih, List.filter_cons_of_neg (by simp [hq])]
      · rw [List.filter_cons_of_neg hq]
        have hL : ∀ c ∈ t.filter q, c ≠ a := by
          intro c hc hca
          rcases List.mem_filter.1 hc with ⟨-, hcq⟩
          rw [hca] at hcq
          exact hq hcq
        rw [foldl_remove_card_cons_of_ne a _ t hL, ih,
          List.filter_cons_of_pos (by simp [hq])]

theorem resolve_miss_players_length (gm : GoFishGame) (ci : Nat) (tn : String) (rank : Rank) :
    (resolve_miss gm ci tn rank).2.players.length = gm.players.length := by
  unfold resolve_miss
  dsimp only
  cases gm.deck with
  | nil =>
      rw [check_game_over_players, advance_turn_players]
      simp [length_update_player_at]
  | cons c rest =>
      by_cases h : c.rank = rank
      · simp only [h, if_true]
        rw [check_game_over_players]
        simp [length_update_player_at]
      · simp only [h, if_false]
        rw [check_game_over_players, advance_turn_players]
        simp [length_update_player_at]


theorem advance_turn_deck (gm : GoFishGame) : (advance_turn gm).deck = gm.deck := rfl

theorem resolve_hit_measure (gm : GoFishGame) (ci tj : Nat) (tn : String) (rank : Rank)
    (hci : ci < gm.players.length) (htj : tj < gm.players.length) :
    psum (resolve_hit gm ci tj tn rank).2.players = psum gm.players ∧
    (resolve_hit gm ci tj tn rank).2.deck = gm.deck := by
  unfold resolve_hit
  dsimp only
  rw [check_game_over_players, check_game_over_deck]
  refine ⟨?_, rfl⟩
  set q : Card → Bool := fun c => decide (c.rank = rank) with hq
  set H := (gm.players.getD tj default).hand with hH
  set ps1 := update_player_at gm.players ci (fun p => update_knowledge p tn rank true)
    with hps1
  have l1 : ps1.length = gm.players.length := length_update_player_at _ _ _
  have e1 : psum ps1 = psum gm.players :=
    psum_update_of_measure_eq _ _ _ hci (fun p => update_knowledge_measure p tn rank true)
  have hand1 : (ps1.getD tj default).hand = H := by
    by_cases hct : ci = tj
    · subst hct
      rw [hps1, update_player_at, getD_set_self _ _ _ hci]
      rfl
    · rw [hps1, update_player_at, getD_set_other _ _ _ _ hct]
  set ps2 := update_player_at ps1 tj
    (fun p => { p with hand := (H.filter q).foldl remove_card p.hand }) with hps2
  have l2 : ps2.length = gm.players.length := by
    rw [hps2, update_player_at, List.length_set, l1]
  have e2 : psum ps2 + (H.filter q).length = psum ps1 := by
    have h := map_sum_update_player player_measure ps1 tj
      (fun p => { p with hand := (H.filter q).foldl remove_card p.hand })
      (by rw [l1]; exact htj)
    rw [← hps2] at h
    have hx : player_measure
        ((fun p => { p with hand := (H.filter q).foldl remove_card p.hand })
          (ps1.getD tj default)) + (H.filter q).length =
        player_measure (ps1.getD tj default) := by
      have hb : player_measure
          ((fun p => { p with hand := (H.filter q).foldl remove_card p.hand })
            (ps1.getD tj default)) =
          ((H.filter q).foldl remove_card (ps1.getD tj default).hand).length +
            4 * (ps1.getD tj default).books.length := rfl
      rw [hb, hand1, foldl_remove_card_filter]
      have hs := length_filter_add_not H q
      simp only [player_measure, hand1]
      omega
    unfold psum
    omega
  set ps3 := update_player_at ps2 ci
    (fun p => { p with hand := p.hand ++ H.filter q }) with hps3
  have l3 : ps3.length = gm.players.length := by
    rw [hps3, update_player_at, List.length_set, l2]
  have e3 : psum ps3 = psum ps2 + (H.filter q).length := by
    have h := map_sum_update_player player_measure ps2 ci
      (fun p => { p with hand := p.hand ++ H.filter q }) (by rw [l2]; exact hci)
    rw [← hps3] at h
    have hx : player_measure
        ((fun p => { p with hand := p.hand ++ H.filter q }) (ps2.getD ci default)) =
        player_measure (ps2.getD ci default) + (H.filter q).length := by
      have hb : player_measure
          ((fun p => { p with hand := p.hand ++ H.filter q }) (ps2.getD ci default)) =
          ((ps2.getD ci default).hand ++ H.filter q).length +
            4 * (ps2.getD ci default).books.length := rfl
      rw [hb, List.length_append]
      simp only [player_measure]
      omega
    unfold psum
    omega
  have e4 : psum (update_player_at ps3 ci (fun p => (check_for_books p).2)) = psum ps3 :=
    psum_update_of_measure_eq _ _ _ (by rw [l3]; exact hci) check_for_books_measure
  rw [e4, e3]
  omega

theorem resolve_miss_measure (gm : GoFishGame) (ci : Nat) (tn : String) (rank : Rank)
    (hci : ci < gm.players.length) :
    psum (resolve_miss gm ci tn rank).2.players +
      (resolve_miss gm ci tn rank).2.deck.length =
      psum gm.players + gm.deck.length := by
  unfold resolve_miss
  dsimp only
  set ps1 := update_player_at gm.players ci (fun p => update_knowledge p tn rank false)
    with hps1
  have l1 : ps1.length = gm.players.length := length_update_player_at _ _ _
  have e1 : psum ps1 = psum gm.players :=
    psum_update_of_measure_eq _ _ _ hci (fun p => update_knowledge_measure p tn rank false)
  cases hd : gm.deck with
  | nil =>
      rw [check_game_over_players, check_game_over_deck, advance_turn_players,
        advance_turn_deck]
      have e2 : psum (update_player_at ps1 ci (fun p => (check_for_books p).2)) = psum ps1 :=
        psum_update_of_measure_eq _ _ _ (by rw [l1]; exact hci) check_for_books_measure
      show psum (update_player_at ps1 ci (fun p => (check_for_books p).2)) +
        ([] : List Card).length = psum gm.players + ([] : List Card).length
      rw [e2, e1]
  | cons c rest =>
      set ps2 := update_player_at ps1 ci (fun p => { p with hand := p.hand ++ [c] })
        with hps2
      have l2 : ps2.length = gm.players.length := by
        rw [hps2, update_player_at, List.length_set, l1]
      have e2 : psum ps2 = psum ps1 + 1 := by
        have h := map_sum_update_player player_measure ps1 ci
          (fun p => { p with hand := p.hand ++ [c] }) (by rw [l1]; exact hci)
        rw [← hps2] at h
        have hx : player_measure
            ((fun p => { p with hand := p.hand ++ [c] }) (ps1.getD ci default)) =
            player_measure (ps1.getD ci default) + 1 := by
          have hb : player_measure
              ((fun p => { p with hand := p.hand ++ [c] }) (ps1.getD ci default)) =
              ((ps1.getD ci default).hand ++ [c]).length +
                4 * (ps1.getD ci default).books.length := rfl
          rw [hb, List.length_append]
          simp only [player_measure, List.length_cons, List.length_nil]
          omega
        unfold psum
        omega
      have e3 : psum (update_player_at ps2 ci (fun p => (check_for_books p).2)) = psum ps2 :=
        psum_update_of_measure_eq _ _ _ (by rw [l2]; exact hci) check_for_books_measure
      by_cases hcr : c.rank = rank
      · simp only [hcr, if_true]
        rw [check_game_over_players, check_game_over_deck]
        show psum (update_player_at ps2 ci (fun p => (check_for_books p).2)) + rest.length =
          psum gm.players + (c :: rest).length
        rw [e3, e2, e1]
        simp only [List.length_cons]
        omega
      · simp only [hcr, if_false]
        rw [check_game_over_players, check_game_over_deck, advance_turn_players,
          advance_turn_deck]
        show psum (update_player_at ps2 ci (fun p => (check_for_books p).2)) + rest.length =
          psum gm.players + (c :: rest).length
        rw [e3, e2, e1]
        simp only [List.length_cons]
        omega

theorem empty_hand_draw_measure (gm : GoFishGame)
    (hci : gm.current_player_idx < gm.players.length) :
    psum (empty_hand_draw gm).players + (empty_hand_draw gm).deck.length =
      psum gm.players + gm.deck.length := by
  unfold empty_hand_draw
  cases hd : gm.deck with
  | nil => simp [hd]
  | cons c rest =>
      dsimp only
      set ps1 := update_player_at gm.players gm.current_player_idx
        (fun p => { p with hand := p.hand ++ [c] }) with hps1
      have l1 : ps1.length = gm.players.length := length_update_player_at _ _ _
      have e1 : psum ps1 = psum gm.players + 1 := by
        have h := map_sum_update_player player_measure gm.players gm.current_player_idx
          (fun p => { p with hand := p.hand ++ [c] }) hci
        rw [← hps1] at h
        have hx : player_measure
            ((fun p => { p with hand := p.hand ++ [c] }) (gm.players.getD
              gm.current_player_idx default)) =
            player_measure (gm.players.getD gm.current_player_idx default) + 1 := by
          have hb : player_measure
              ((fun p => { p with hand := p.hand ++ [c] }) (gm.players.getD
                gm.current_player_idx default)) =
              ((gm.players.getD gm.current_player_idx default).hand ++ [c]).length +
                4 * (gm.players.getD gm.current_player_idx default).books.length := rfl
          rw [hb, List.length_append]
          simp only [player_measure, List.length_cons, List.length_nil]
          omega
        unfold psum
        omega
      have e2 : psum (update_player_at ps1 gm.current_player_idx
          (fun p => (check_for_books p).2)) = psum ps1 :=
        psum_update_of_measure_eq _ _ _ (by rw [l1]; exact hci) check_for_books_measure
      show psum (update_player_at ps1 gm.current_player_idx
          (fun p => (check_for_books p).2)) + rest.length =
        psum gm.players + (c :: rest).length
      rw [e2, e1]
      simp only [List.length_cons]
      omega

theorem pre_ask_state_measure (gm : GoFishGame)
    (hci : gm.current_player_idx < gm.players.length) :
    psum (pre_ask_state gm).players + (pre_ask_state gm).deck.length =
      psum gm.players + gm.deck.length := by
  unfold pre_ask_state
  dsimp only
  split
  · exact empty_hand_draw_measure { gm with turn_count := gm.turn_count + 1 } hci
  · rfl

theorem pre_ask_state_deck (gm : GoFishGame) :
    (pre_ask_state gm).deck = gm.deck ∨
    ∃ c rest, gm.deck = c :: rest ∧ (pre_ask_state gm).deck = rest := by
  unfold pre_ask_state empty_hand_draw
  dsimp only
  split
  · cases hd : gm.deck with
    | nil => exact Or.inl rfl
    | cons c rest => exact Or.inr ⟨c, rest, rfl, rfl⟩
  · exact Or.inl rfl

/-! ### Membership of the chosen opponent -/

theorem random_choice_mem {α : Type} [Inhabited α] (l : List α) (g : Rng) (h : l ≠ []) :
    (random_choice l g).1 ∈ l := by
  unfold random_choice Rng.next
  dsimp only
  have hlen : 0 < l.length := List.length_pos.2 h
  have hlt : g 0 % l.length < l.length := Nat.mod_lt _ hlen
  rw [List.getD_eq_getElem _ _ hlt]
  exact List.getElem_mem _

theorem first_known_mem (store : List (String × List Rank)) (names : List String)
    (r? : Option Rank) (n : String) (h : first_known store names r? = some n) :
    n ∈ names := by
  unfold first_known at h
  cases r? with
  | none => cases h
  | some r => exact List.mem_of_find?_eq_some h

theorem choose_player_mem (p : Player) (names : List String) (g : Rng)
    (h : names ≠ []) : (p.choose_player_to_ask names g).1 ∈ names := by
  unfold Player.choose_player_to_ask
  cases p.strategy with
  | random => exact random_choice_mem names g h
  | smart =>
      cases hfk : first_known p.known_cards names (SmartPlayer.choose_rank_to_ask_for p) with
      | some n => exact first_known_mem _ _ _ _ hfk
      | none => exact random_choice_mem names g h
  | memory =>
      cases hfk : first_known p.asked_ranks names (MemoryPlayer.choose_rank_to_ask_for p) with
      | some n => exact first_known_mem _ _ _ _ hfk
      | none => exact random_choice_mem names g h

theorem other_names_sub (ps : List Player) (ci : Nat) (n : String)
    (hn : n ∈ other_names ps ci) :
    ∃ j, j < ps.length ∧ (ps.getD j default).name = n := by
  rcases List.mem_map.1 hn with ⟨j, hj, hje⟩
  rcases List.mem_filter.1 hj with ⟨hj2, -⟩
  exact ⟨j, List.mem_range.1 hj2, hje⟩

theorem findIdx_name_lt (ps : List Player) (n : String)
    (hex : ∃ j, j < ps.length ∧ (ps.getD j default).name = n) :
    ps.findIdx (fun p => p.name == n) < ps.length := by
  rcases hex with ⟨j, hj, hje⟩
  refine List.findIdx_lt_length.2 ⟨ps.getD j default, ?_, by simp only [hje, beq_self_eq_true]⟩
  rw [List.getD_eq_getElem _ _ hj]
  exact List.getElem_mem _

/-! ### play_turn case lemmas and conservation -/

theorem play_turn_eq_over (gm0 : GoFishGame) (g0 : Rng) (hover : gm0.game_over = true) :
    play_turn gm0 g0 = (false, gm0, g0) := by
  unfold play_turn
  rw [hover]
  simp

theorem play_turn_eq_skip (gm0 : GoFishGame) (g0 : Rng) (hover : gm0.game_over = false)
    (hskip : ((gm0.players.getD gm0.current_player_idx default).hand.isEmpty &&
        gm0.deck.isEmpty) = true) :
    play_turn gm0 g0 =
      ((check_game_over (advance_turn { gm0 with turn_count := gm0.turn_count + 1 })).1,
       (check_game_over (advance_turn { gm0 with turn_count := gm0.turn_count + 1 })).2,
       g0) := by
  unfold play_turn
  rw [hover]
  dsimp only
  rw [hskip]
  simp

theorem psum_check_advance (gm : GoFishGame) :
    psum (check_game_over (advance_turn gm)).2.players +
      (check_game_over (advance_turn gm)).2.deck.length =
      psum gm.players + gm.deck.length := by
  rw [check_game_over_players, check_game_over_deck, advance_turn_players, advance_turn_deck]

/-- Conservation of the card measure by a single turn, together with
preservation of the player count and of the validity of the current index. -/
theorem play_turn_state (gm0 : GoFishGame) (g0 : Rng)
    (hci : gm0.current_player_idx < gm0.players.length) :
    psum (play_turn gm0 g0).2.1.players + (play_turn gm0 g0).2.1.deck.length =
      psum gm0.players + gm0.deck.length ∧
    (play_turn gm0 g0).2.1.players.length = gm0.players.length ∧
    (play_turn gm0 g0).2.1.current_player_idx < (play_turn gm0 g0).2.1.players.length := by
  have hlen : 0 < gm0.players.length := Nat.lt_of_le_of_lt (Nat.zero_le _) hci
  cases hover : gm0.game_over with
  | true =>
      rw [play_turn_eq_over gm0 g0 hover]
      exact ⟨rfl, rfl, hci⟩
  | false =>
      cases hskip : ((gm0.players.getD gm0.current_player_idx default).hand.isEmpty &&
          gm0.deck.isEmpty) with
      | true =>
          rw [play_turn_eq_skip gm0 g0 hover hskip]
          refine ⟨psum_check_advance _, ?_, ?_⟩
          · rw [check_game_over_players, advance_turn_players]
          · rw [check_game_over_players, advance_turn_players, check_game_over_idx,
              advance_turn_idx]
            exact Nat.mod_lt _ hlen
      | false =>
          rw [play_turn_eq gm0 g0 hover hskip]
          have hpm := pre_ask_state_measure gm0 hci
          have hpl := pre_ask_state_players_length gm0
          have hpi := pre_ask_state_idx gm0
          cases hoth : (other_names (pre_ask_state gm0).players
              gm0.current_player_idx).isEmpty with
          | true =>
              simp only [hoth, if_true]
              refine ⟨?_, ?_, ?_⟩
              · exact hpm
              · exact hpl
              · show (pre_ask_state gm0).current_player_idx <
                  (pre_ask_state gm0).players.length
                rw [hpi, hpl]
                exact hci
          | false =>
              simp only [hoth, Bool.false_eq_true, if_false]
              cases hrr : (Player.choose_rank_to_ask_for
                  ((pre_ask_state gm0).players.getD gm0.current_player_idx default)
                  (Player.choose_player_to_ask
                    ((pre_ask_state gm0).players.getD gm0.current_player_idx default)
                    (other_names (pre_ask_state gm0).players gm0.current_player_idx)
                    g0).2).1 with
              | none =>
                  simp only [hrr]
                  refine ⟨?_, ?_, ?_⟩
                  · rw [psum_check_advance, hpm]
                  · rw [check_game_over_players, advance_turn_players, hpl]
                  · rw [check_game_over_players, advance_turn_players, check_game_over_idx,
                      advance_turn_idx, hpl]
                    exact Nat.mod_lt _ hlen
              | some rank =>
                  simp only [hrr]
                  have hothne : other_names (pre_ask_state gm0).players
                      gm0.current_player_idx ≠ [] := by
                    intro hc
                    rw [hc] at hoth
                    cases hoth
                  set tn := (Player.choose_player_to_ask
                    ((pre_ask_state gm0).players.getD gm0.current_player_idx default)
                    (other_names (pre_ask_state gm0).players gm0.current_player_idx) g0).1
                    with htn
                  have htmem := choose_player_mem
                    ((pre_ask_state gm0).players.getD gm0.current_player_idx default)
                    (other_names (pre_ask_state gm0).players gm0.current_player_idx)
                    g0 hothne
                  have htj : (pre_ask_state gm0).players.findIdx
                      (fun p => p.name == tn) < (pre_ask_state gm0).players.length :=
                    findIdx_name_lt _ _ (other_names_sub _ _ _ htmem)
                  have hci2 : gm0.current_player_idx < (pre_ask_state gm0).players.length := by
                    rw [hpl]; exact hci
                  split
                  · -- miss branch
                    have hm := resolve_miss_measure (pre_ask_state gm0)
                      gm0.current_player_idx tn rank hci2
                    have hl := resolve_miss_players_length (pre_ask_state gm0)
                      gm0.current_player_idx tn rank
                    have hi := resolve_miss_idx (pre_ask_state gm0)
                      gm0.current_player_idx tn rank
                    refine ⟨by rw [hm, hpm], by rw [hl, hpl], ?_⟩
                    rw [hl, hpl, hi]
                    cases (pre_ask_state gm0).deck with
                    | nil =>
                        rw [hpl]
                        exact Nat.mod_lt _ hlen
                    | cons c rest =>
                        by_cases hcr : c.rank = rank
                        · simp only [hcr, if_true, hpi]
                          exact hci
                        · simp only [hcr, if_false, hpl]
                          exact Nat.mod_lt _ hlen
                  · -- hit branch
                    have hm := resolve_hit_measure (pre_ask_state gm0)
                      gm0.current_player_idx ((pre_ask_state gm0).players.findIdx
                        (fun p => p.name == tn)) tn rank hci2 htj
                    have hl := resolve_hit_players_length (pre_ask_state gm0)
                      gm0.current_player_idx ((pre_ask_state gm0).players.findIdx
                        (fun p => p.name == tn)) tn rank
                    have hi := resolve_hit_idx (pre_ask_state gm0)
                      gm0.current_player_idx ((pre_ask_state gm0).players.findIdx
                        (fun p => p.name == tn)) tn rank
                    refine ⟨?_, by rw [hl, hpl], ?_⟩
                    · rw [hm.1, hm.2, hpm]
                    · rw [hl, hpl, hi, hpi]
                      exact hci

theorem deal_one_measure (gm : GoFishGame) (i : Nat) (hi : i < gm.players.length) :
    psum (deal_one gm i).players + (deal_one gm i).deck.length =
      psum gm.players + gm.deck.length ∧
    (deal_one gm i).players.length = gm.players.length ∧
    (deal_one gm i).current_player_idx = gm.current_player_idx := by
  unfold deal_one draw_multiple
  dsimp only
  refine ⟨?_, by simp [length_update_player_at], rfl⟩
  set ps1 := update_player_at gm.players i
    (fun p => { p with hand := p.hand ++ gm.deck.take gm.initial_cards }) with hps1
  have l1 : ps1.length = gm.players.length := length_update_player_at _ _ _
  have e1 : psum ps1 = psum gm.players + (gm.deck.take gm.initial_cards).length := by
    have h := map_sum_update_player player_measure gm.players i
      (fun p => { p with hand := p.hand ++ gm.deck.take gm.initial_cards }) hi
    rw [← hps1] at h
    have hx : player_measure
        ((fun p => { p with hand := p.hand ++ gm.deck.take gm.initial_cards })
          (gm.players.getD i default)) =
        player_measure (gm.players.getD i default) +
          (gm.deck.take gm.initial_cards).length := by
      have hb : player_measure
          ((fun p => { p with hand := p.hand ++ gm.deck.take gm.initial_cards })
            (gm.players.getD i default)) =
          ((gm.players.getD i default).hand ++ gm.deck.take gm.initial_cards).length +
            4 * (gm.players.getD i default).books.length := rfl
      rw [hb, List.length_append]
      simp only [player_measure]
      omega
    unfold psum
    omega
  have e2 : psum (update_player_at ps1 i (fun p => (check_for_books p).2)) = psum ps1 :=
    psum_update_of_measure_eq _ _ _ (by rw [l1]; exact hi) check_for_books_measure
  rw [e2, e1]
  have htd : (gm.deck.take gm.initial_cards).length +
      (gm.deck.drop gm.initial_cards).length = gm.deck.length := by
    simp
    omega
  omega

theorem setup_fold_measure : ∀ (l : List Nat) (gm : GoFishGame),
    (∀ i ∈ l, i < gm.players.length) →
    psum (l.foldl deal_one gm).players + (l.foldl deal_one gm).deck.length =
      psum gm.players + gm.deck.length ∧
    (l.foldl deal_one gm).players.length = gm.players.length ∧
    (l.foldl deal_one gm).current_player_idx = gm.current_player_idx := by
  intro l
  induction l with
  | nil => intro gm _; exact ⟨rfl, rfl, rfl⟩
  | cons j t ih =>
      intro gm hl
      have hj : j < gm.players.length := hl j (List.mem_cons_self _ _)
      have hd := deal_one_measure gm j hj
      have ht := ih (deal_one gm j)
        (fun i hi => by rw [hd.2.1]; exact hl i (List.mem_cons_of_mem _ hi))
      rw [List.foldl_cons]
      exact ⟨by rw [ht.1, hd.1], by rw [ht.2.1, hd.2.1], by rw [ht.2.2, hd.2.2]⟩

theorem psum_init (specs : List (String × Strategy)) :
    psum (specs.map (fun e => init_player e.1 e.2)) = 0 := by
  unfold psum
  rw [List.map_map]
  apply List.sum_eq_zero
  intro x hx
  rcases List.mem_map.1 hx with ⟨e, -, he⟩
  rw [← he]
  rfl

theorem psum_decomp (ps : List Player) :
    psum ps = (ps.map (fun p => p.hand.length)).sum +
      4 * (ps.map (fun p => p.books.length)).sum := by
  induction ps with
  | nil => rfl
  | cons p t ih =>
      simp only [psum, player_measure, List.map_cons, List.sum_cons] at ih ⊢
      omega

theorem standard_deck_length : standard_deck.length = 52 := rfl

/-- The combined invariant behind claim C1: along every reachable state the
card measure equals the shuffled deck's size, the player count is that of the
construction, and the current index stays in range. -/
theorem reachable_invariant (specs : List (String × Strategy)) (deck0 : List Card)
    (m : Nat) (hlen2 : 2 ≤ specs.length) :
    ∀ gm : GoFishGame, ReachableFrom specs deck0 m gm →
      psum gm.players + gm.deck.length = deck0.length ∧
      gm.players.length = specs.length ∧
      gm.current_player_idx < gm.players.length := by
  intro gm h
  induction h with
  | start =>
      have hsf := setup_fold_measure
        (List.range (init_game specs deck0 m).players.length)
        (init_game specs deck0 m) (fun i hi => List.mem_range.1 hi)
      have hinitp : psum (init_game specs deck0 m).players = 0 := psum_init specs
      have hinitl : (init_game specs deck0 m).players.length = specs.length := by
        simp [init_game]
      refine ⟨?_, ?_, ?_⟩
      · rw [setup] at *
        rw [hsf.1, hinitp]
        simp [init_game]
      · rw [setup] at *
        rw [hsf.2.1, hinitl]
      · rw [setup] at *
        rw [hsf.2.2, hsf.2.1, hinitl]
        show (init_game specs deck0 m).current_player_idx < specs.length
        show 0 < specs.length
        omega
  | step gm2 g hr ih =>
      have hs := play_turn_state gm2 g ih.2.2
      exact ⟨by rw [hs.1, ih.1], by rw [hs.2.1, ih.2.1], hs.2.2⟩

/-- Claim C1: in every state reachable during a single game over a shuffled
standard 52-card deck (the state after setup and the state after every
play_turn call under any behaviour of the random source), the cards in all
players' hands, plus the cards remaining in the deck, plus 4 per completed
book across all players, total exactly 52. -/
theorem C1_card_conservation (specs : List (String × Strategy)) (deck0 : List Card)
    (m : Nat) (gm : GoFishGame)
    (hlen2 : 2 ≤ specs.length)
    (hreach : ReachableFrom specs deck0 m gm)
    (hperm : deck0.Perm standard_deck) :
    (gm.players.map (fun p => p.hand.length)).sum + gm.deck.length +
      4 * (gm.players.map (fun p => p.books.length)).sum = 52 := by
  have h := (reachable_invariant specs deck0 m hlen2 gm hreach).1
  have hd : deck0.length = 52 := by
    rw [hperm.length_eq, standard_deck_length]
  have hp := psum_decomp gm.players
  omega

/-- Witness for C1: the freshly set-up two-player game over the unshuffled
standard deck. -/
theorem C1_card_conservation_witness :
    ((setup (init_game [("A", .random), ("B", .smart)] standard_deck 7)).players.map
        (fun p => p.hand.length)).sum +
      (setup (init_game [("A", .random), ("B", .smart)] standard_deck 7)).deck.length +
      4 * ((setup (init_game [("A", .random), ("B", .smart)] standard_deck 7)).players.map
        (fun p => p.books.length)).sum = 52 :=
  C1_card_conservation [("A", .random), ("B", .smart)] standard_deck 7 _
    (by simp) (ReachableFrom.start) (List.Perm.refl _)

/-! ### Claim C9: the MemoryPlayer ask-memory is never populated -/

theorem players_mk (a : List Player) (b : Nat) (c : List Card) (d : Nat) (e : Bool)
    (f : Nat) : (GoFishGame.mk a b c d e f).players = a := rfl

/-- Every player's `asked_ranks` store is empty. -/
def asked_empty (ps : List Player) : Prop := ∀ p ∈ ps, p.asked_ranks = []

theorem default_player_asked : (default : Player).asked_ranks = [] := rfl

theorem asked_empty_getD (ps : List Player) (i : Nat) (h : asked_empty ps) :
    (ps.getD i default).asked_ranks = [] := by
  by_cases hi : i < ps.length
  · rw [List.getD_eq_getElem _ _ hi]
    exact h _ (List.getElem_mem _)
  · rw [List.getD_eq_getElem?_getD, List.getElem?_eq_none (Nat.le_of_not_lt hi)]
    rfl

theorem asked_empty_update (ps : List Player) (i : Nat) (f : Player → Player)
    (hf : ∀ p, (f p).asked_ranks = p.asked_ranks) (h : asked_empty ps) :
    asked_empty (update_player_at ps i f) := by
  intro q hq
  rcases List.mem_or_eq_of_mem_set hq with hq | hq
  · exact h q hq
  · rw [hq, hf]
    exact asked_empty_getD ps i h

theorem asked_empty_resolve_hit (gm : GoFishGame) (ci tj : Nat) (tn : String)
    (rank : Rank) (h : asked_empty gm.players) :
    asked_empty (resolve_hit gm ci tj tn rank).2.players := by
  unfold resolve_hit
  dsimp only
  rw [check_game_over_players, players_mk]
  apply asked_empty_update
  · intro p
    rfl
  apply asked_empty_update
  · intro p
    rfl
  apply asked_empty_update
  · intro p
    rfl
  apply asked_empty_update
  · intro p
    rfl
  exact h

theorem asked_empty_resolve_miss (gm : GoFishGame) (ci : Nat) (tn : String)
    (rank : Rank) (h : asked_empty gm.players) :
    asked_empty (resolve_miss gm ci tn rank).2.players := by
  unfold resolve_miss
  dsimp only
  cases gm.deck with
  | nil =>
      rw [check_game_over_players, advance_turn_players, players_mk]
      apply asked_empty_update
      · intro p
        rfl
      apply asked_empty_update
      · intro p
        rfl
      exact h
  | cons c rest =>
      by_cases hcr : c.rank = rank
      · simp only [hcr, if_true]
        rw [check_game_over_players, players_mk]
        apply asked_empty_update
        · intro p
          rfl
        apply asked_empty_update
        · intro p
          rfl
        apply asked_empty_update
        · intro p
          rfl
        exact h
      · simp only [hcr, if_false]
        rw [check_game_over_players, advance_turn_players, players_mk]
        apply asked_empty_update
        · intro p
          rfl
        apply asked_empty_update
        · intro p
          rfl
        apply asked_empty_update
        · intro p
          rfl
        exact h

theorem asked_empty_pre_ask (gm : GoFishGame) (h : asked_empty gm.players) :
    asked_empty (pre_ask_state gm).players := by
  unfold pre_ask_state empty_hand_draw
  dsimp only
  split
  · cases gm.deck with
    | nil => exact h
    | cons c rest =>
        rw [players_mk]
        apply asked_empty_update
        · intro p
          rfl
        apply asked_empty_update
        · intro p
          rfl
        exact h
  · exact h

theorem asked_empty_play_turn (gm0 : GoFishGame) (g0 : Rng)
    (h : asked_empty gm0.players) :
    asked_empty (play_turn gm0 g0).2.1.players := by
  cases hover : gm0.game_over with
  | true =>
      rw [play_turn_eq_over gm0 g0 hover]
      exact h
  | false =>
      cases hskip : ((gm0.players.getD gm0.current_player_idx default).hand.isEmpty &&
          gm0.deck.isEmpty) with
      | true =>
          rw [play_turn_eq_skip gm0 g0 hover hskip]
          rw [check_game_over_players, advance_turn_players]
          exact h
      | false =>
          rw [play_turn_eq gm0 g0 hover hskip]
          have hp := asked_empty_pre_ask gm0 h
          cases hoth : (other_names (pre_ask_state gm0).players
              gm0.current_player_idx).isEmpty with
          | true =>
              simp only [hoth, if_true]
              exact hp
          | false =>
              simp only [hoth, Bool.false_eq_true, if_false]
              cases hrr : (Player.choose_rank_to_ask_for
                  ((pre_ask_state gm0).players.getD gm0.current_player_idx default)
                  (Player.choose_player_to_ask
                    ((pre_ask_state gm0).players.getD gm0.current_player_idx default)
                    (other_names (pre_ask_state gm0).players gm0.current_player_idx)
                    g0).2).1 with
              | none =>
                  simp only [hrr]
                  rw [check_game_over_players, advance_turn_players]
                  exact hp
              | some rank =>
                  simp only [hrr]
                  split
                  · exact asked_empty_resolve_miss _ _ _ _ hp
                  · exact asked_empty_resolve_hit _ _ _ _ _ hp

theorem asked_empty_deal_fold : ∀ (l : List Nat) (gm : GoFishGame),
    asked_empty gm.players → asked_empty ((l.foldl deal_one gm)).players := by
  intro l
  induction l with
  | nil => intro gm h; exact h
  | cons j t ih =>
      intro gm h
      rw [List.foldl_cons]
      refine ih _ ?_
      unfold deal_one draw_multiple
      dsimp only
      rw [players_mk]
      apply asked_empty_update
      · intro p
        rfl
      apply asked_empty_update
      · intro p
        rfl
      exact h

theorem first_known_nil (names : List String) (r? : Option Rank) :
    first_known [] names r? = none := by
  unfold first_known
  cases r? with
  | none => rfl
  | some r =>
      rw [List.find?_eq_none]
      intro n hn
      simp [lookup_set]

/-- Claim C9: in every reachable state (after setup, and after any sequence
of play_turn calls) every player's `asked_ranks` store is empty — the engine
never invokes `record_ask` — and consequently a MemoryPlayer's
choose_player_to_ask never takes its memory-consulting branch: it always
degenerates to the uniform random choice over the supplied opponents. -/
theorem C9_memory_never_used (specs : List (String × Strategy)) (deck0 : List Card)
    (m : Nat) (gm : GoFishGame) (hreach : ReachableFrom specs deck0 m gm) :
    (∀ p ∈ gm.players, p.asked_ranks = []) ∧
    (∀ p ∈ gm.players, p.strategy = .memory →
      ∀ (names : List String) (g : Rng),
        p.choose_player_to_ask names g = random_choice names g) := by
  have hae : asked_empty gm.players := by
    induction hreach with
    | start =>
        rw [setup]
        apply asked_empty_deal_fold
        intro p hp
        rcases List.mem_map.1 hp with ⟨e, -, he⟩
        rw [← he]
        rfl
    | step gm2 g hr ih => exact asked_empty_play_turn gm2 g ih
  refine ⟨hae, fun p hp hstrat names g => ?_⟩
  have hask : p.asked_ranks = [] := hae p hp
  simp only [Player.choose_player_to_ask, hstrat, hask, first_known_nil]

/-- Witness for C9: the freshly set-up game with a memory player. -/
theorem C9_memory_never_used_witness :
    (∀ p ∈ (setup (init_game [("A", .memory), ("B", .random)] standard_deck 7)).players,
      p.asked_ranks = []) ∧
    (∀ p ∈ (setup (init_game [("A", .memory), ("B", .random)] standard_deck 7)).players,
      p.strategy = .memory →
      ∀ (names : List String) (g : Rng),
        p.choose_player_to_ask names g = random_choice names g) :=
  C9_memory_never_used [("A", .memory), ("B", .random)] standard_deck 7 _
    ReachableFrom.start

/-! ### Claim C6: determinism of a run given the same random stream -/

/-- Relational small-step semantics of play_turn: one constructor per branch
of the source (terminal state, empty-hand skip, defensive no-opponents stop,
no rank to ask, miss, hit).  The relation relates a state and a random
stream to the produced (continue?, state, stream) triple. -/
inductive TurnRel : GoFishGame → Rng → Bool × GoFishGame × Rng → Prop
  | over : ∀ gm g, gm.game_over = true → TurnRel gm g (false, gm, g)
  | skip : ∀ gm g, gm.game_over = false →
      ((gm.players.getD gm.current_player_idx default).hand.isEmpty &&
        gm.deck.isEmpty) = true →
      TurnRel gm g
        ((check_game_over (advance_turn { gm with turn_count := gm.turn_count + 1 })).1,
         (check_game_over (advance_turn { gm with turn_count := gm.turn_count + 1 })).2,
         g)
  | no_opponents : ∀ gm g, gm.game_over = false →
      ((gm.players.getD gm.current_player_idx default).hand.isEmpty &&
        gm.deck.isEmpty) = false →
      (other_names (pre_ask_state gm).players gm.current_player_idx).isEmpty = true →
      TurnRel gm g (false, { pre_ask_state gm with game_over := true }, g)
  | no_rank : ∀ gm g tname g1 g2, gm.game_over = false →
      ((gm.players.getD gm.current_player_idx default).hand.isEmpty &&
        gm.deck.isEmpty) = false →
      (other_names (pre_ask_state gm).players gm.current_player_idx).isEmpty = false →
      Player.choose_player_to_ask
        ((pre_ask_state gm).players.getD gm.current_player_idx default)
        (other_names (pre_ask_state gm).players gm.current_player_idx) g = (tname, g1) →
      Player.choose_rank_to_ask_for
        ((pre_ask_state gm).players.getD gm.current_player_idx default) g1 =
        (none, g2) →
      TurnRel gm g
        ((check_game_over (advance_turn (pre_ask_state gm))).1,
         (check_game_over (advance_turn (pre_ask_state gm))).2, g2)
  | ask_miss : ∀ gm g tname g1 g2 rank, gm.game_over = false →
      ((gm.players.getD gm.current_player_idx default).hand.isEmpty &&
        gm.deck.isEmpty) = false →
      (other_names (pre_ask_state gm).players gm.current_player_idx).isEmpty = false →
      Player.choose_player_to_ask
        ((pre_ask_state gm).players.getD gm.current_player_idx default)
        (other_names (pre_ask_state gm).players gm.current_player_idx) g = (tname, g1) →
      Player.choose_rank_to_ask_for
        ((pre_ask_state gm).players.getD gm.current_player_idx default) g1 =
        (some rank, g2) →
      (((pre_ask_state gm).players.getD
          ((pre_ask_state gm).players.findIdx (fun p => p.name == tname))
          default).hand.filter (fun c => decide (c.rank = rank))).isEmpty = true →
      TurnRel gm g
        ((resolve_miss (pre_ask_state gm) gm.current_player_idx tname rank).1,
         (resolve_miss (pre_ask_state gm) gm.current_player_idx tname rank).2, g2)
  | ask_hit : ∀ gm g tname g1 g2 rank, gm.game_over = false →
      ((gm.players.getD gm.current_player_idx default).hand.isEmpty &&
        gm.deck.isEmpty) = false →
      (other_names (pre_ask_state gm).players gm.current_player_idx).isEmpty = false →
      Player.choose_player_to_ask
        ((pre_ask_state gm).players.getD gm.current_player_idx default)
        (other_names (pre_ask_state gm).players gm.current_player_idx) g = (tname, g1) →
      Player.choose_rank_to_ask_for
        ((pre_ask_state gm).players.getD gm.current_player_idx default) g1 =
        (some rank, g2) →
      (((pre_ask_state gm).players.getD
          ((pre_ask_state gm).players.findIdx (fun p => p.name == tname))
          default).hand.filter (fun c => decide (c.rank = rank))).isEmpty = false →
      TurnRel gm g
        ((resolve_hit (pre_ask_state gm) gm.current_player_idx
            ((pre_ask_state gm).players.findIdx (fun p => p.name == tname)) tname rank).1,
         (resolve_hit (pre_ask_state gm) gm.current_player_idx
            ((pre_ask_state gm).players.findIdx (fun p => p.name == tname)) tname rank).2,
         g2)

/-- The functional play_turn realises the relation (totality). -/
theorem TurnRel_total (gm : GoFishGame) (g : Rng) : TurnRel gm g (play_turn gm g) := by
  cases hover : gm.game_over with
  | true =>
      rw [play_turn_eq_over gm g hover]
      exact TurnRel.over gm g hover
  | false =>
      cases hskip : ((gm.players.getD gm.current_player_idx default).hand.isEmpty &&
          gm.deck.isEmpty) with
      | true =>
          rw [play_turn_eq_skip gm g hover hskip]
          exact TurnRel.skip gm g hover hskip
      | false =>
          rw [play_turn_eq gm g hover hskip]
          cases hoth : (other_names (pre_ask_state gm).players
              gm.current_player_idx).isEmpty with
          | true =>
              simp only [hoth, if_true]
              exact TurnRel.no_opponents gm g hover hskip hoth
          | false =>
              simp only [hoth, Bool.false_eq_true, if_false]
              rcases hpr : Player.choose_player_to_ask
                  ((pre_ask_state gm).players.getD gm.current_player_idx default)
                  (other_names (pre_ask_state gm).players gm.current_player_idx) g
                with ⟨tname, g1⟩
              rcases hrk : Player.choose_rank_to_ask_for
                  ((pre_ask_state gm).players.getD gm.current_player_idx default) g1
                with ⟨rank?, g2⟩
              simp only [hpr, hrk]
              cases rank? with
              | none => exact TurnRel.no_rank gm g tname g1 g2 hover hskip hoth hpr hrk
              | some rank =>
                  cases hE : (((pre_ask_state gm).players.getD
                      ((pre_ask_state gm).players.findIdx (fun p => p.name == tname))
                      default).hand.filter (fun c => decide (c.rank = rank))).isEmpty with
                  | true =>
                      simp only [hE, if_true]
                      exact TurnRel.ask_miss gm g tname g1 g2 rank hover hskip hoth hpr
                        hrk hE
                  | false =>
                      simp only [hE, Bool.false_eq_true, if_false]
                      exact TurnRel.ask_hit gm g tname g1 g2 rank hover hskip hoth hpr
                        hrk hE

/-- The relation is the graph of play_turn (uniqueness). -/
theorem TurnRel_unique (gm : GoFishGame) (g : Rng) (r : Bool × GoFishGame × Rng)
    (h : TurnRel gm g r) : r = play_turn gm g := by
  cases h with
  | over hover => rw [play_turn_eq_over gm g hover]
  | skip hover hskip => rw [play_turn_eq_skip gm g hover hskip]
  | no_opponents hover hskip hoth =>
      rw [play_turn_eq gm g hover hskip]
      simp only [hoth, if_true]
  | no_rank tname g1 g2 hover hskip hoth hpr hrk =>
      rw [play_turn_eq gm g hover hskip]
      simp only [hoth, Bool.false_eq_true, if_false, hpr, hrk]
  | ask_miss tname g1 g2 rank hover hskip hoth hpr hrk hE =>
      rw [play_turn_eq gm g hover hskip]
      simp only [hoth, Bool.false_eq_true, if_false, hpr, hrk, hE, if_true]
  | ask_hit tname g1 g2 rank hover hskip hoth hpr hrk hE =>
      rw [play_turn_eq gm g hover hskip]
      simp only [hoth, Bool.false_eq_true, if_false, hpr, hrk, hE]

/-- A run of the engine as a relation: the trace lists the successive
(continue?, state, stream) results of the repeated play_turn calls of
play_game. -/
inductive RunRel : GoFishGame → Rng → List (Bool × GoFishGame × Rng) → Prop
  | nil : ∀ gm g, RunRel gm g []
  | cons : ∀ gm g b gm1 g1 tr, TurnRel gm g (b, gm1, g1) → RunRel gm1 g1 tr →
      RunRel gm g ((b, gm1, g1) :: tr)

/-- Claim C6: the engine is deterministic in its random stream — two runs of
the play_game loop from the same state consuming the same random stream
produce identical traces of the same length: every intermediate state (hence
every shuffle outcome, ask, transfer and draw), every continue-flag, the
scores, and the winner set coincide step by step. -/
theorem C6_run_determinism (gm : GoFishGame) (g : Rng)
    (tr1 tr2 : List (Bool × GoFishGame × Rng))
    (h1 : RunRel gm g tr1) (h2 : RunRel gm g tr2) (hlen : tr1.length = tr2.length) :
    tr1 = tr2 ∧
    tr1.map (fun x => get_winner x.2.1) = tr2.map (fun x => get_winner x.2.1) ∧
    tr1.map (fun x => x.2.1.players.map get_score) =
      tr2.map (fun x => x.2.1.players.map get_score) := by
  have heq : tr1 = tr2 := by
    induction h1 generalizing tr2 with
    | nil =>
        cases h2 with
        | nil => rfl
        | cons _ _ b2 gm2 g2 tr2b ht2 hr2 => cases hlen
    | cons gma ga b gm1 g1 tr ht hr ih =>
        cases h2 with
        | nil => cases hlen
        | cons _ _ b2 gm2 g2 tr2b ht2 hr2 =>
            have e1 := TurnRel_unique _ _ _ ht
            have e2 := TurnRel_unique _ _ _ ht2
            rw [← e2] at e1
            injection e1 with eb erest
            injection erest with egm eg
            subst eb
            subst egm
            subst eg
            have heq2 := ih tr2b hr2 (by simpa using hlen)
            rw [heq2]
  subst heq
  exact ⟨rfl, rfl, rfl⟩

/-- Witness for C6: a concrete one-step run compared with itself. -/
theorem C6_run_determinism_witness :
    [play_turn c3_example_game (fun _ => 0)] = [play_turn c3_example_game (fun _ => 0)] ∧
    [play_turn c3_example_game (fun _ => 0)].map (fun x => get_winner x.2.1) =
      [play_turn c3_example_game (fun _ => 0)].map (fun x => get_winner x.2.1) ∧
    [play_turn c3_example_game (fun _ => 0)].map
        (fun x => x.2.1.players.map get_score) =
      [play_turn c3_example_game (fun _ => 0)].map
        (fun x => x.2.1.players.map get_score) := by
  have hrun : RunRel c3_example_game (fun _ => 0) [play_turn c3_example_game (fun _ => 0)] := by
    have ht := TurnRel_total c3_example_game (fun _ => 0)
    rcases hp : play_turn c3_example_game (fun _ => 0) with ⟨b, gm1, g1⟩
    rw [hp] at ht
    exact RunRel.cons _ _ b gm1 g1 [] ht (RunRel.nil gm1 g1)
  exact C6_run_determinism c3_example_game (fun _ => 0) _ _ hrun hrun rfl

/-! ### Claim C2: non-termination counterexample

The spec claims play_game terminates for every behaviour of the random
source.  The following four-player configuration refutes it: after the deal
the deck is empty and the hands are arranged so that, under a periodic
random stream, every ask misses, the turn merely rotates, and the same
(knowledge-stabilised) state recurs every four turns — the loop never
returns false. -/

/-- The eleven hearts of ranks 4..A. -/
def hearts_run : List Card :=
  [⟨.r4,.hearts⟩, ⟨.r5,.hearts⟩, ⟨.r6,.hearts⟩, ⟨.r7,.hearts⟩, ⟨.r8,.hearts⟩,
   ⟨.r9,.hearts⟩, ⟨.r10,.hearts⟩, ⟨.rJ,.hearts⟩, ⟨.rQ,.hearts⟩, ⟨.rK,.hearts⟩,
   ⟨.rA,.hearts⟩]

/-- The eleven diamonds of ranks 4..A. -/
def diamonds_run : List Card :=
  [⟨.r4,.diamonds⟩, ⟨.r5,.diamonds⟩, ⟨.r6,.diamonds⟩, ⟨.r7,.diamonds⟩,
   ⟨.r8,.diamonds⟩, ⟨.r9,.diamonds⟩, ⟨.r10,.diamonds⟩, ⟨.rJ,.diamonds⟩,
   ⟨.rQ,.diamonds⟩, ⟨.rK,.diamonds⟩, ⟨.rA,.diamonds⟩]

/-- The eleven clubs of ranks 4..A. -/
def clubs_run : List Card :=
  [⟨.r4,.clubs⟩, ⟨.r5,.clubs⟩, ⟨.r6,.clubs⟩, ⟨.r7,.clubs⟩, ⟨.r8,.clubs⟩,
   ⟨.r9,.clubs⟩, ⟨.r10,.clubs⟩, ⟨.rJ,.clubs⟩, ⟨.rQ,.clubs⟩, ⟨.rK,.clubs⟩,
   ⟨.rA,.clubs⟩]

/-- The eleven spades of ranks 4..A. -/
def spades_run : List Card :=
  [⟨.r4,.spades⟩, ⟨.r5,.spades⟩, ⟨.r6,.spades⟩, ⟨.r7,.spades⟩, ⟨.r8,.spades⟩,
   ⟨.r9,.spades⟩, ⟨.r10,.spades⟩, ⟨.rJ,.spades⟩, ⟨.rQ,.spades⟩, ⟨.rK,.spades⟩,
   ⟨.rA,.spades⟩]

/-- The adversarial shuffle order: dealing 13 cards in turn gives player 0
the hand 2♥ 2♦ 4♥..A♥, player 1 the hand 3♥ 3♦ 4♦..A♦, player 2 the hand
2♣ 2♠ 4♣..A♣, player 3 the hand 3♣ 3♠ 4♠..A♠ (no initial books, deck
empty after the deal). -/
def bad_deck : List Card :=
  ([⟨.r2,.hearts⟩, ⟨.r2,.diamonds⟩] ++ hearts_run) ++
  ([⟨.r3,.hearts⟩, ⟨.r3,.diamonds⟩] ++ diamonds_run) ++
  ([⟨.r2,.clubs⟩, ⟨.r2,.spades⟩] ++ clubs_run) ++
  ([⟨.r3,.clubs⟩, ⟨.r3,.spades⟩] ++ spades_run)

/-- The adversarial random stream, periodic with period 8 (two draws per
turn, four turns per cycle): player 0 asks player 1 for rank 2, player 1
asks player 2 for rank 3, player 2 asks player 3 for rank 2, player 3 asks
player 0 for rank 3 — every ask misses. -/
def bad_stream : Rng := fun n => [0, 0, 1, 0, 2, 0, 0, 0].getD (n % 8) 0

/-- The four-player all-RandomPlayer game dealt 13 cards each from the
adversarial shuffle. -/
def bad_game : GoFishGame :=
  init_game [("P0", .random), ("P1", .random), ("P2", .random), ("P3", .random)]
    bad_deck 13

/-- The recurring state: the position after the first four (miss) turns,
once every knowledge entry created by the misses has stabilised. -/
def cycle_state : GoFishGame := (run_turns 4 (setup bad_game, bad_stream)).1

/-- Abbreviation for overriding the turn counter (the only component of the
state that keeps changing along the non-terminating run). -/
def set_tc (gm : GoFishGame) (t : Nat) : GoFishGame := { gm with turn_count := t }

def cyc_s5 : GoFishGame := (play_turn cycle_state bad_stream).2.1
def cyc_g5 : Rng := fun n => bad_stream (n + 2)
def cyc_s6 : GoFishGame := (play_turn cyc_s5 cyc_g5).2.1
def cyc_g6 : Rng := fun n => bad_stream (n + 4)
def cyc_s7 : GoFishGame := (play_turn cyc_s6 cyc_g6).2.1
def cyc_g7 : Rng := fun n => bad_stream (n + 6)
def cyc_g8 : Rng := fun n => bad_stream (n + 8)

theorem run_turns_add (a b : Nat) : ∀ s : GoFishGame × Rng,
    run_turns (a + b) s = run_turns b (run_turns a s) := by
  induction a with
  | zero =>
      intro s
      rw [Nat.zero_add]
      rfl
  | succ n ih =>
      intro s
      have h : n + 1 + b = (n + b) + 1 := by omega
      rw [h]
      show run_turns (n + b) ((play_turn s.1 s.2).2.1, (play_turn s.1 s.2).2.2) =
        run_turns b (run_turns (n + 1) s)
      rw [ih]
      rfl

theorem run_turns_unfold (n : Nat) (s : GoFishGame × Rng) :
    run_turns (n + 1) s =
      run_turns n ((play_turn s.1 s.2).2.1, (play_turn s.1 s.2).2.2) := rfl

theorem cyc_g8_eq : cyc_g8 = bad_stream := by
  funext n
  show bad_stream (n + 8) = bad_stream n
  simp [bad_stream, Nat.add_mod_right]

set_option maxHeartbeats 2000000 in
theorem bad_run_base : run_turns 4 (setup bad_game, bad_stream) = (cycle_state, cyc_g8) := rfl

set_option maxHeartbeats 2000000 in
theorem cycle_state_tc : set_tc cycle_state 4 = cycle_state := rfl

set_option maxHeartbeats 2000000 in
theorem bad_step0 (t : Nat) : play_turn (set_tc cycle_state t) bad_stream =
    (true, set_tc cyc_s5 (t + 1), cyc_g5) := rfl

set_option maxHeartbeats 2000000 in
theorem bad_step1 (t : Nat) : play_turn (set_tc cyc_s5 t) cyc_g5 =
    (true, set_tc cyc_s6 (t + 1), cyc_g6) := rfl

set_option maxHeartbeats 2000000 in
theorem bad_step2 (t : Nat) : play_turn (set_tc cyc_s6 t) cyc_g6 =
    (true, set_tc cyc_s7 (t + 1), cyc_g7) := rfl

set_option maxHeartbeats 2000000 in
theorem bad_step3 (t : Nat) : play_turn (set_tc cyc_s7 t) cyc_g7 =
    (true, set_tc cycle_state (t + 1), cyc_g8) := rfl

theorem run_one (s : GoFishGame × Rng) :
    run_turns 1 s = ((play_turn s.1 s.2).2.1, (play_turn s.1 s.2).2.2) := rfl

theorem bad_cycle (t : Nat) :
    run_turns 4 (set_tc cycle_state t, bad_stream) =
      (set_tc cycle_state (t + 4), bad_stream) := by
  show run_turns (3 + 1) (set_tc cycle_state t, bad_stream) =
    (set_tc cycle_state (t + 4), bad_stream)
  rw [run_turns_unfold 3]
  dsimp only
  rw [bad_step0 t]
  dsimp only
  show run_turns (2 + 1) (set_tc cyc_s5 (t + 1), cyc_g5) = _
  rw [run_turns_unfold 2]
  dsimp only
  rw [bad_step1 (t + 1)]
  dsimp only
  show run_turns (1 + 1) (set_tc cyc_s6 (t + 1 + 1), cyc_g6) = _
  rw [run_turns_unfold 1]
  dsimp only
  rw [bad_step2 (t + 1 + 1)]
  dsimp only
  show run_turns (0 + 1) (set_tc cyc_s7 (t + 1 + 1 + 1), cyc_g7) = _
  rw [run_turns_unfold 0]
  dsimp only
  rw [bad_step3 (t + 1 + 1 + 1)]
  show (set_tc cycle_state (t + 1 + 1 + 1 + 1), cyc_g8) =
    (set_tc cycle_state (t + 4), bad_stream)
  rw [cyc_g8_eq]

theorem bad_partial0 (t : Nat) :
    run_turns 0 (set_tc cycle_state t, bad_stream) = (set_tc cycle_state t, bad_stream) := rfl

theorem bad_partial1 (t : Nat) :
    run_turns 1 (set_tc cycle_state t, bad_stream) = (set_tc cyc_s5 (t + 1), cyc_g5) := by
  rw [run_one]
  dsimp only
  rw [bad_step0 t]

theorem bad_partial2 (t : Nat) :
    run_turns 2 (set_tc cycle_state t, bad_stream) = (set_tc cyc_s6 (t + 1 + 1), cyc_g6) := by
  rw [show (2 : Nat) = 1 + 1 from rfl, run_turns_add 1 1, bad_partial1 t, run_one]
  dsimp only
  rw [bad_step1 (t + 1)]

theorem bad_partial3 (t : Nat) :
    run_turns 3 (set_tc cycle_state t, bad_stream) =
      (set_tc cyc_s7 (t + 1 + 1 + 1), cyc_g7) := by
  rw [show (3 : Nat) = 2 + 1 from rfl, run_turns_add 2 1, bad_partial2 t, run_one]
  dsimp only
  rw [bad_step2 (t + 1 + 1)]

theorem bad_cycles (k : Nat) :
    run_turns (4 * k) (set_tc cycle_state 4, bad_stream) =
      (set_tc cycle_state (4 + 4 * k), bad_stream) := by
  induction k with
  | zero =>
      have h0 : (4 : Nat) = 4 + 4 * 0 := by norm_num
      exact congrArg (fun m => (set_tc cycle_state m, bad_stream)) h0
  | succ n ih =>
      have h : 4 * (n + 1) = 4 * n + 4 := by ring
      rw [h, run_turns_add (4 * n) 4, ih, bad_cycle]
      have h2 : 4 + 4 * n + 4 = 4 + (4 * n + 4) := by omega
      rw [h2]

theorem bad_bool0 (t : Nat) : (play_turn (set_tc cycle_state t) bad_stream).1 = true := by
  rw [bad_step0 t]

theorem bad_bool1 (t : Nat) : (play_turn (set_tc cyc_s5 t) cyc_g5).1 = true := by
  rw [bad_step1 t]

theorem bad_bool2 (t : Nat) : (play_turn (set_tc cyc_s6 t) cyc_g6).1 = true := by
  rw [bad_step2 t]

theorem bad_bool3 (t : Nat) : (play_turn (set_tc cyc_s7 t) cyc_g7).1 = true := by
  rw [bad_step3 t]

set_option maxHeartbeats 4000000 in
theorem bad_never_ends : ∀ n, turn_result (setup bad_game, bad_stream) n = true := by
  intro n
  by_cases h4 : n < 4
  · interval_cases n <;> rfl
  · push_neg at h4
    obtain ⟨m, rfl⟩ : ∃ m, n = 4 + m := ⟨n - 4, by omega⟩
    obtain ⟨k, j, hj, rfl⟩ : ∃ k j, j < 4 ∧ m = 4 * k + j :=
      ⟨m / 4, m % 4, Nat.mod_lt _ (by norm_num), (Nat.div_add_mod m 4).symm⟩
    unfold turn_result
    have hdecomp : 4 + (4 * k + j) = 4 + 4 * k + j := by ring
    rw [hdecomp, run_turns_add (4 + 4 * k) j, run_turns_add 4 (4 * k), bad_run_base,
      cyc_g8_eq, ← cycle_state_tc, bad_cycles k]
    interval_cases j
    · rw [bad_partial0 (4 + 4 * k)]
      exact bad_bool0 (4 + 4 * k)
    · rw [bad_partial1 (4 + 4 * k)]
      exact bad_bool1 (4 + 4 * k + 1)
    · rw [bad_partial2 (4 + 4 * k)]
      exact bad_bool2 (4 + 4 * k + 1 + 1)
    · rw [bad_partial3 (4 + 4 * k)]
      exact bad_bool3 (4 + 4 * k + 1 + 1 + 1)

/-- Counterexample for claim C2: a legitimate configuration — the deck is a
permutation of the standard 52-card deck, there are four (≥ 2) players, all
with the non-interactive random strategy — together with one behaviour of
the random source under which the play_game loop never reaches a play_turn
call returning false: play_game does not terminate. -/
theorem C2_nontermination_counterexample :
    bad_deck.Perm standard_deck ∧
    2 ≤ bad_game.players.length ∧
    ¬ loop_ends (setup bad_game, bad_stream) := by
  refine ⟨by decide, by decide, ?_⟩
  rintro ⟨n, hn⟩
  rw [bad_never_ends n] at hn
  cases hn

/-! ### Claim C2 (amended): two-player termination — counting lemmas -/

theorem count_rank_append (l1 l2 : List Card) (r : Rank) :
    count_rank (l1 ++ l2) r = count_rank l1 r + count_rank l2 r := by
  simp [count_rank, List.countP_append]

theorem count_rank_cons (c : Card) (l : List Card) (r : Rank) :
    count_rank (c :: l) r = count_rank l r + (if c.rank = r then 1 else 0) := by
  by_cases h : c.rank = r <;> simp [count_rank, List.countP_cons, h]

theorem count_rank_singleton (c : Card) (r : Rank) :
    count_rank [c] r = if c.rank = r then 1 else 0 := by
  by_cases h : c.rank = r <;> simp [count_rank, h]

theorem count_rank_sublist (l1 l2 : List Card) (r : Rank) (h : l1.Sublist l2) :
    count_rank l1 r ≤ count_rank l2 r :=
  List.Sublist.countP_le _ h

/-- Book extraction moves the conservation quantity from the hand to the book
list: counting 4 per book of a rank, nothing is created or destroyed. -/
theorem check_for_books_count (p : Player) (r : Rank) :
    count_rank (check_for_books p).2.hand r + 4 * ((check_for_books p).2.books.count r) =
      count_rank p.hand r + 4 * p.books.count r := by
  rw [check_for_books_hand, check_for_books_books, List.count_append]
  by_cases h : count_rank p.hand r = 4
  · rw [count_rank_filter_out _ _ _ (fun c _ hc => by simp [hc, h])]
    rw [List.count_eq_one_of_mem (nodup_find_books _) ((mem_find_books _ _).2 h)]
    omega
  · rw [count_rank_filter_other _ _ _ (fun c _ hc => by simp [hc, h])]
    rw [List.count_eq_zero_of_not_mem (fun hm => h ((mem_find_books _ _).1 hm))]
    omega

/-- After a book check on a hand that held at most 4 cards of a rank, at most
3 remain. -/
theorem check_for_books_bound (p : Player) (r : Rank) (h4 : count_rank p.hand r ≤ 4) :
    count_rank (check_for_books p).2.hand r ≤ 3 := by
  rw [check_for_books_hand]
  by_cases h : count_rank p.hand r = 4
  · rw [count_rank_filter_out _ _ _ (fun c _ hc => by simp [hc, h])]
    omega
  · rw [count_rank_filter_other _ _ _ (fun c _ hc => by simp [hc, h])]
    omega

theorem check_for_books_hand_le (p : Player) :
    (check_for_books p).2.hand.length ≤ p.hand.length := by
  rw [check_for_books_hand]
  exact List.length_filter_le _ _

theorem check_for_books_name (p : Player) : (check_for_books p).2.name = p.name := rfl

theorem update_knowledge_name (p : Player) (n : String) (r : Rank) (b : Bool) :
    (update_knowledge p n r b).name = p.name := rfl

/-- A book check on a one-card hand leaves it unchanged. -/
theorem check_for_books_single (p : Player) (c : Card) (hh : p.hand = [c]) :
    (check_for_books p).2.hand = [c] := by
  rw [check_for_books_hand, hh]
  have h1 : count_rank [c] c.rank = 1 := by simp [count_rank]
  simp [List.filter_cons, h1]

/-! ### Two-player list computations -/

theorem getD_pair_zero (a b : Player) : [a, b].getD 0 default = a := rfl

theorem getD_pair_one (a b : Player) : [a, b].getD 1 default = b := rfl

theorem update_pair_zero (a b : Player) (f : Player → Player) :
    update_player_at [a, b] 0 f = [f a, b] := rfl

theorem update_pair_one (a b : Player) (f : Player → Player) :
    update_player_at [a, b] 1 f = [a, f b] := rfl

theorem other_names_pair_zero (a b : Player) : other_names [a, b] 0 = [b.name] := rfl

theorem other_names_pair_one (a b : Player) : other_names [a, b] 1 = [a.name] := rfl

theorem findIdx_pair_second (a b : Player) (hne : a.name ≠ b.name) :
    [a, b].findIdx (fun p => p.name == b.name) = 1 := by
  rw [List.findIdx_cons, List.findIdx_cons]
  have h1 : (a.name == b.name) = false := by
    simp [hne]
  have h2 : (b.name == b.name) = true := by simp
  rw [h1, h2]
  rfl

theorem findIdx_pair_first (a b : Player) :
    [a, b].findIdx (fun p => p.name == a.name) = 0 := by
  rw [List.findIdx_cons]
  have h2 : (a.name == a.name) = true := by simp
  rw [h2]
  rfl

/-! ### Membership in the sorted rank list -/

theorem mem_insert_desc (f : Rank → Nat) (r x : Rank) :
    ∀ l : List Rank, x ∈ insert_desc f r l ↔ x = r ∨ x ∈ l := by
  intro l
  induction l with
  | nil => simp [insert_desc]
  | cons a t ih =>
      by_cases h : f a > f r
      · rw [insert_desc, if_pos h]
        simp only [List.mem_cons, ih]
        tauto
      · rw [insert_desc, if_neg h]
        simp only [List.mem_cons]

theorem mem_sort_ranks_desc (f : Rank → Nat) :
    ∀ (l : List Rank) (x : Rank), x ∈ sort_ranks_desc f l ↔ x ∈ l := by
  intro l
  induction l with
  | nil => intro x; simp [sort_ranks_desc]
  | cons r rs ih =>
      intro x
      rw [sort_ranks_desc, mem_insert_desc]
      simp only [List.mem_cons, ih]

/-! ### The chosen rank is always held by the asker -/

/-- Every strategy's choose_rank_to_ask_for on a non-empty hand returns a
rank of which the hand holds at least one card. -/
theorem choose_rank_spec (p : Player) (g : Rng) (hne : p.hand ≠ []) :
    ∃ r g2, p.choose_rank_to_ask_for g = (some r, g2) ∧ 0 < count_rank p.hand r := by
  have hger : ∀ r, r ∈ dedup_first (p.hand.map Card.rank) → 0 < count_rank p.hand r := by
    intro r hr
    rcases List.mem_map.1 ((mem_dedup_first _ _).1 hr) with ⟨c, hc, hcr⟩
    exact (count_rank_pos _ _).2 ⟨c, hc, hcr⟩
  have hgr_ne : dedup_first (p.hand.map Card.rank) ≠ [] := by
    cases hh : p.hand with
    | nil => exact absurd hh hne
    | cons a t => simp [hh, dedup_first]
  have hie : p.hand.isEmpty = false := by
    cases hh : p.hand with
    | nil => exact absurd hh hne
    | cons a t => rfl
  unfold Player.choose_rank_to_ask_for
  cases hs : p.strategy with
  | random =>
      unfold RandomPlayer.choose_rank_to_ask_for
      dsimp only
      have hre : (get_ranks p.hand).isEmpty = false := by
        rw [List.isEmpty_eq_false_iff_exists_mem]
        rcases List.exists_mem_of_ne_nil _ hgr_ne with ⟨r, hr⟩
        exact ⟨r, hr⟩
      rw [hre]
      simp only [Bool.false_eq_true, if_false]
      rw [show random_choice (get_ranks p.hand) g =
        ((random_choice (get_ranks p.hand) g).1, (random_choice (get_ranks p.hand) g).2)
        from rfl]
      exact ⟨(random_choice (get_ranks p.hand) g).1, (random_choice (get_ranks p.hand) g).2,
        rfl, hger _ (random_choice_mem _ g hgr_ne)⟩
  | smart =>
      dsimp only
      unfold SmartPlayer.choose_rank_to_ask_for
      rw [hie]
      simp only [Bool.false_eq_true, if_false]
      have hlen : 0 < (sort_ranks_desc (fun r => count_rank p.hand r)
          (dedup_first (p.hand.map Card.rank))).length := by
        rw [length_sort_ranks_desc]
        exact List.length_pos.2 hgr_ne
      cases hL : sort_ranks_desc (fun r => count_rank p.hand r)
          (dedup_first (p.hand.map Card.rank)) with
      | nil => rw [hL] at hlen; cases hlen
      | cons r rs =>
          refine ⟨r, g, rfl, hger r ?_⟩
          have hrmem : r ∈ sort_ranks_desc (fun r => count_rank p.hand r)
              (dedup_first (p.hand.map Card.rank)) := by
            rw [hL]; exact List.mem_cons_self _ _
          exact (mem_sort_ranks_desc _ _ _).1 hrmem
  | memory =>
      dsimp only
      unfold MemoryPlayer.choose_rank_to_ask_for
      rw [hie]
      simp only [Bool.false_eq_true, if_false]
      have hlen : 0 < (sort_ranks_desc (fun r => count_rank p.hand r)
          (dedup_first (p.hand.map Card.rank))).length := by
        rw [length_sort_ranks_desc]
        exact List.length_pos.2 hgr_ne
      cases hL : sort_ranks_desc (fun r => count_rank p.hand r)
          (dedup_first (p.hand.map Card.rank)) with
      | nil => rw [hL] at hlen; cases hlen
      | cons r rs =>
          refine ⟨r, g, rfl, hger r ?_⟩
          have hrmem : r ∈ sort_ranks_desc (fun r => count_rank p.hand r)
              (dedup_first (p.hand.map Card.rank)) := by
            rw [hL]; exact List.mem_cons_self _ _
          exact (mem_sort_ranks_desc _ _ _).1 hrmem

/-! ### Per-player effect of the ask resolutions -/

/-- The per-player, per-rank conservation quantity: cards of the rank held in
hand plus 4 per completed book of the rank. -/
def pc (r : Rank) (p : Player) : Nat := count_rank p.hand r + 4 * p.books.count r

/-- The current player after the hit branch: knowledge update, receipt of the
target's matching cards, book check. -/
def xfer_hit_cur (cur oth : Player) (tn : String) (rank : Rank) : Player :=
  (check_for_books { update_knowledge cur tn rank true with
    hand := cur.hand ++ oth.hand.filter (fun c => decide (c.rank = rank)) }).2

/-- The target player after the hit branch: its cards of the asked rank are
gone. -/
def xfer_hit_tgt (oth : Player) (rank : Rank) : Player :=
  { oth with hand := oth.hand.filter (fun c => ! decide (c.rank = rank)) }

/-- The current player after a miss with a non-empty deck: knowledge update,
one drawn card, book check. -/
def xfer_miss_cur (cur : Player) (tn : String) (rank : Rank) (c : Card) : Player :=
  (check_for_books { update_knowledge cur tn rank false with hand := cur.hand ++ [c] }).2

/-- The current player after the empty-hand draw at the top of a turn. -/
def draw_cur (cur : Player) (c : Card) : Player :=
  (check_for_books { cur with hand := cur.hand ++ [c] }).2

theorem xfer_hit_pc (cur oth : Player) (tn : String) (rank r : Rank) :
    pc r (xfer_hit_cur cur oth tn rank) + pc r (xfer_hit_tgt oth rank) =
      pc r cur + pc r oth := by
  unfold pc xfer_hit_cur xfer_hit_tgt
  have h1 := check_for_books_count { update_knowledge cur tn rank true with
    hand := cur.hand ++ oth.hand.filter (fun c => decide (c.rank = rank)) } r
  have hb2 : (update_knowledge cur tn rank true).books = cur.books := rfl
  dsimp only at h1 ⊢
  rw [count_rank_append] at h1
  rw [hb2] at h1 ⊢
  by_cases hr : r = rank
  · subst hr
    have h2 : count_rank (oth.hand.filter (fun c => decide (c.rank = r))) r =
        count_rank oth.hand r :=
      count_rank_filter_other _ _ _ (fun c _ hc => by simp [hc])
    have h3 : count_rank (oth.hand.filter (fun c => ! decide (c.rank = r))) r = 0 :=
      count_rank_filter_out _ _ _ (fun c _ hc => by simp [hc])
    omega
  · have h2 : count_rank (oth.hand.filter (fun c => decide (c.rank = rank))) r = 0 :=
      count_rank_filter_out _ _ _ (fun c _ hc => by simp [hc, hr])
    have h3 : count_rank (oth.hand.filter (fun c => ! decide (c.rank = rank))) r =
        count_rank oth.hand r :=
      count_rank_filter_other _ _ _ (fun c _ hc => by simp [hc, hr])
    omega

theorem xfer_hit_cur_bound (cur oth : Player) (tn : String) (rank r : Rank)
    (hc : count_rank cur.hand r ≤ 3)
    (hsum : count_rank cur.hand rank + count_rank oth.hand rank ≤ 4) :
    count_rank (xfer_hit_cur cur oth tn rank).hand r ≤ 3 := by
  unfold xfer_hit_cur
  apply check_for_books_bound
  show count_rank (cur.hand ++ oth.hand.filter (fun c => decide (c.rank = rank))) r ≤ 4
  rw [count_rank_append]
  by_cases hr : r = rank
  · subst hr
    rw [count_rank_filter_other _ _ _ (fun c _ hc2 => by simp [hc2])]
    omega
  · rw [count_rank_filter_out _ _ _ (fun c _ hc2 => by simp [hc2, hr])]
    omega

theorem xfer_hit_tgt_bound (oth : Player) (rank r : Rank)
    (h : count_rank oth.hand r ≤ 3) :
    count_rank (xfer_hit_tgt oth rank).hand r ≤ 3 := by
  unfold xfer_hit_tgt
  show count_rank (oth.hand.filter _) r ≤ 3
  exact le_trans (count_rank_sublist _ _ _ (List.filter_sublist _)) h

theorem xfer_hit_len (cur oth : Player) (tn : String) (rank : Rank) :
    (xfer_hit_cur cur oth tn rank).hand.length + (xfer_hit_tgt oth rank).hand.length ≤
      cur.hand.length + oth.hand.length := by
  unfold xfer_hit_cur xfer_hit_tgt
  have h1 := check_for_books_hand_le { update_knowledge cur tn rank true with
    hand := cur.hand ++ oth.hand.filter (fun c => decide (c.rank = rank)) }
  dsimp only at h1 ⊢
  rw [List.length_append] at h1
  have h2 := length_filter_add_not oth.hand (fun c => decide (c.rank = rank))
  omega

theorem xfer_hit_tgt_len_lt (oth : Player) (rank : Rank)
    (hne : oth.hand.filter (fun c => decide (c.rank = rank)) ≠ []) :
    (xfer_hit_tgt oth rank).hand.length < oth.hand.length := by
  have h2 := length_filter_add_not oth.hand (fun c => decide (c.rank = rank))
  have h3 : 0 < (oth.hand.filter (fun c => decide (c.rank = rank))).length :=
    List.length_pos.2 hne
  show (oth.hand.filter _).length < _
  omega

theorem xfer_hit_cur_name (cur oth : Player) (tn : String) (rank : Rank) :
    (xfer_hit_cur cur oth tn rank).name = cur.name := rfl

theorem xfer_hit_tgt_name (oth : Player) (rank : Rank) :
    (xfer_hit_tgt oth rank).name = oth.name := rfl

theorem xfer_miss_pc (cur : Player) (tn : String) (rank : Rank) (c : Card) (r : Rank) :
    pc r (xfer_miss_cur cur tn rank c) = pc r cur + (if c.rank = r then 1 else 0) := by
  unfold pc xfer_miss_cur
  have h1 := check_for_books_count { update_knowledge cur tn rank false with
    hand := cur.hand ++ [c] } r
  have hb2 : (update_knowledge cur tn rank false).books = cur.books := rfl
  dsimp only at h1 ⊢
  rw [count_rank_append, count_rank_singleton] at h1
  rw [hb2] at h1 ⊢
  omega

theorem xfer_miss_bound (cur : Player) (tn : String) (rank : Rank) (c : Card) (r : Rank)
    (hc : count_rank cur.hand r ≤ 3) :
    count_rank (xfer_miss_cur cur tn rank c).hand r ≤ 3 := by
  unfold xfer_miss_cur
  apply check_for_books_bound
  show count_rank (cur.hand ++ [c]) r ≤ 4
  rw [count_rank_append, count_rank_singleton]
  by_cases h : c.rank = r <;> simp [h] <;> omega

theorem xfer_miss_len (cur : Player) (tn : String) (rank : Rank) (c : Card) :
    (xfer_miss_cur cur tn rank c).hand.length ≤ cur.hand.length + 1 := by
  unfold xfer_miss_cur
  have h1 := check_for_books_hand_le { update_knowledge cur tn rank false with
    hand := cur.hand ++ [c] }
  dsimp only at h1 ⊢
  rw [List.length_append] at h1
  simpa using h1

theorem xfer_miss_name (cur : Player) (tn : String) (rank : Rank) (c : Card) :
    (xfer_miss_cur cur tn rank c).name = cur.name := rfl

theorem draw_cur_hand (cur : Player) (c : Card) (hh : cur.hand = []) :
    (draw_cur cur c).hand = [c] := by
  unfold draw_cur
  apply check_for_books_single
  show cur.hand ++ [c] = [c]
  rw [hh]
  rfl

theorem draw_cur_pc (cur : Player) (c : Card) (r : Rank) :
    pc r (draw_cur cur c) = pc r cur + (if c.rank = r then 1 else 0) := by
  unfold pc draw_cur
  have h1 := check_for_books_count { cur with hand := cur.hand ++ [c] } r
  dsimp only at h1 ⊢
  rw [count_rank_append, count_rank_singleton] at h1
  omega

theorem draw_cur_bound (cur : Player) (c : Card) (r : Rank) (hh : cur.hand = []) :
    count_rank (draw_cur cur c).hand r ≤ 3 := by
  rw [draw_cur_hand cur c hh, count_rank_singleton]
  by_cases h : c.rank = r <;> simp [h]

theorem draw_cur_name (cur : Player) (c : Card) : (draw_cur cur c).name = cur.name := rfl

/-! ### Game-level two-player forms of the turn phases -/

theorem pre_ask_eq_of_filled (gm : GoFishGame)
    (hemp : (gm.players.getD gm.current_player_idx default).hand.isEmpty = false) :
    pre_ask_state gm = { gm with turn_count := gm.turn_count + 1 } := by
  unfold pre_ask_state
  dsimp only
  rw [hemp]
  simp

theorem pre_ask_eq_of_drawn (gm : GoFishGame)
    (hemp : (gm.players.getD gm.current_player_idx default).hand.isEmpty = true) :
    pre_ask_state gm = empty_hand_draw { gm with turn_count := gm.turn_count + 1 } := by
  unfold pre_ask_state
  dsimp only
  rw [hemp]
  simp

theorem empty_hand_draw_pair_zero (gm : GoFishGame) (q0 q1 : Player) (c : Card)
    (rest : List Card) (hp : gm.players = [q0, q1]) (hd : gm.deck = c :: rest)
    (hci : gm.current_player_idx = 0) :
    empty_hand_draw gm = { gm with deck := rest, players := [draw_cur q0 c, q1] } := by
  unfold empty_hand_draw draw_cur
  rw [hd]
  dsimp only
  rw [hci, hp]
  rw [update_pair_zero, update_pair_zero]

theorem empty_hand_draw_pair_one (gm : GoFishGame) (q0 q1 : Player) (c : Card)
    (rest : List Card) (hp : gm.players = [q0, q1]) (hd : gm.deck = c :: rest)
    (hci : gm.current_player_idx = 1) :
    empty_hand_draw gm = { gm with deck := rest, players := [q0, draw_cur q1 c] } := by
  unfold empty_hand_draw draw_cur
  rw [hd]
  dsimp only
  rw [hci, hp]
  rw [update_pair_one, update_pair_one]

theorem resolve_hit_pair_zero (gm : GoFishGame) (q0 q1 : Player) (tn : String)
    (rank : Rank) (hp : gm.players = [q0, q1]) :
    (resolve_hit gm 0 1 tn rank).2 =
      (check_game_over { gm with
        players := [xfer_hit_cur q0 q1 tn rank, xfer_hit_tgt q1 rank] }).2 := by
  unfold resolve_hit xfer_hit_cur xfer_hit_tgt
  dsimp only
  rw [hp]
  rw [getD_pair_one, update_pair_zero, update_pair_one, update_pair_zero,
    update_pair_zero]
  rw [foldl_remove_card_filter]
  rw [update_knowledge_hand]

theorem resolve_hit_pair_one (gm : GoFishGame) (q0 q1 : Player) (tn : String)
    (rank : Rank) (hp : gm.players = [q0, q1]) :
    (resolve_hit gm 1 0 tn rank).2 =
      (check_game_over { gm with
        players := [xfer_hit_tgt q0 rank, xfer_hit_cur q1 q0 tn rank] }).2 := by
  unfold resolve_hit xfer_hit_cur xfer_hit_tgt
  dsimp only
  rw [hp]
  rw [getD_pair_zero, update_pair_one, update_pair_zero, update_pair_one,
    update_pair_one]
  rw [foldl_remove_card_filter]
  rw [update_knowledge_hand]

theorem resolve_miss_pair_zero (gm : GoFishGame) (q0 q1 : Player) (tn : String)
    (rank : Rank) (c : Card) (rest : List Card) (hp : gm.players = [q0, q1])
    (hd : gm.deck = c :: rest) :
    (resolve_miss gm 0 tn rank).2 =
      if c.rank = rank then
        (check_game_over
          { gm with deck := rest, players := [xfer_miss_cur q0 tn rank c, q1] }).2
      else
        (check_game_over (advance_turn
          { gm with deck := rest, players := [xfer_miss_cur q0 tn rank c, q1] })).2 := by
  unfold resolve_miss xfer_miss_cur
  dsimp only
  rw [hp, update_pair_zero]
  rw [hd]
  dsimp only
  rw [update_pair_zero, update_pair_zero, update_knowledge_hand]
  by_cases hcr : c.rank = rank
  · rw [if_pos hcr, if_pos hcr]
  · rw [if_neg hcr, if_neg hcr]

theorem resolve_miss_pair_one (gm : GoFishGame) (q0 q1 : Player) (tn : String)
    (rank : Rank) (c : Card) (rest : List Card) (hp : gm.players = [q0, q1])
    (hd : gm.deck = c :: rest) :
    (resolve_miss gm 1 tn rank).2 =
      if c.rank = rank then
        (check_game_over
          { gm with deck := rest, players := [q0, xfer_miss_cur q1 tn rank c] }).2
      else
        (check_game_over (advance_turn
          { gm with deck := rest, players := [q0, xfer_miss_cur q1 tn rank c] })).2 := by
  unfold resolve_miss xfer_miss_cur
  dsimp only
  rw [hp, update_pair_one]
  rw [hd]
  dsimp only
  rw [update_pair_one, update_pair_one, update_knowledge_hand]
  by_cases hcr : c.rank = rank
  · rw [if_pos hcr, if_pos hcr]
  · rw [if_neg hcr, if_neg hcr]

theorem resolve_miss_pair_empty_zero (gm : GoFishGame) (q0 q1 : Player) (tn : String)
    (rank : Rank) (hp : gm.players = [q0, q1]) (hd : gm.deck = []) :
    (resolve_miss gm 0 tn rank).2 =
      (check_game_over (advance_turn { gm with
        players := [(check_for_books (update_knowledge q0 tn rank false)).2, q1] })).2 := by
  unfold resolve_miss
  dsimp only
  rw [hp, update_pair_zero]
  rw [hd]
  dsimp only
  rw [update_pair_zero]

theorem resolve_miss_pair_empty_one (gm : GoFishGame) (q0 q1 : Player) (tn : String)
    (rank : Rank) (hp : gm.players = [q0, q1]) (hd : gm.deck = []) :
    (resolve_miss gm 1 tn rank).2 =
      (check_game_over (advance_turn { gm with
        players := [q0, (check_for_books (update_knowledge q1 tn rank false)).2] })).2 := by
  unfold resolve_miss
  dsimp only
  rw [hp, update_pair_one]
  rw [hd]
  dsimp only
  rw [update_pair_one]

/-! ### The two-player stable-state invariant and the termination measure -/

/-- Twice the deck size plus the total number of cards held in hands: the
primary termination measure (every draw decreases it, nothing increases it). -/
def mu1 (gm : GoFishGame) : Nat :=
  2 * gm.deck.length + (gm.players.map (fun p => p.hand.length)).sum

/-- The hand size of the non-current player (two-player games): the secondary
termination measure (every hit shrinks it while the primary one cannot grow). -/
def other_hand (gm : GoFishGame) : Nat :=
  ((gm.players.getD (1 - gm.current_player_idx) default).hand).length

/-- Cards of a rank in hands and deck plus 4 per completed book of the rank. -/
def rank_total (gm : GoFishGame) (r : Rank) : Nat :=
  (gm.players.map (pc r)).sum + count_rank gm.deck r

/-- The invariant holding at every state of a two-player game between turns:
two players with distinct names, a current index in range, full per-rank
conservation (each of the 13 ranks accounts for exactly 4 cards), and no hand
holding 4 cards of one rank (eager book extraction). -/
def StableInv (gm : GoFishGame) : Prop :=
  gm.players.length = 2 ∧
  gm.current_player_idx < 2 ∧
  (gm.players.getD 0 default).name ≠ (gm.players.getD 1 default).name ∧
  (∀ r, rank_total gm r = 4) ∧
  (∀ p ∈ gm.players, ∀ r, count_rank p.hand r ≤ 3)

theorem rank_total_pair (gm : GoFishGame) (a b : Player) (hp : gm.players = [a, b])
    (r : Rank) : rank_total gm r = pc r a + pc r b + count_rank gm.deck r := by
  rw [rank_total, hp]
  simp only [List.map_cons, List.map_nil, List.sum_cons, List.sum_nil]
  omega

theorem mu1_pair (gm : GoFishGame) (a b : Player) (hp : gm.players = [a, b]) :
    mu1 gm = 2 * gm.deck.length + a.hand.length + b.hand.length := by
  rw [mu1, hp]
  simp only [List.map_cons, List.map_nil, List.sum_cons, List.sum_nil]
  omega

theorem StableInv_mk (gm : GoFishGame) (a b : Player) (hp : gm.players = [a, b])
    (hci : gm.current_player_idx < 2) (hname : a.name ≠ b.name)
    (htot : ∀ r, pc r a + pc r b + count_rank gm.deck r = 4)
    (hba : ∀ r, count_rank a.hand r ≤ 3) (hbb : ∀ r, count_rank b.hand r ≤ 3) :
    StableInv gm := by
  refine ⟨by rw [hp]; rfl, hci, ?_, ?_, ?_⟩
  · rw [hp, getD_pair_zero, getD_pair_one]
    exact hname
  · intro r
    rw [rank_total_pair gm a b hp r]
    exact htot r
  · intro p hmem r
    rw [hp] at hmem
    rcases List.mem_cons.1 hmem with h | hmem2
    · subst h
      exact hba r
    · have h := List.mem_singleton.1 hmem2
      subst h
      exact hbb r

theorem StableInv_elim (gm : GoFishGame) (hinv : StableInv gm) :
    ∃ a b, gm.players = [a, b] ∧ gm.current_player_idx < 2 ∧ a.name ≠ b.name ∧
      (∀ r, pc r a + pc r b + count_rank gm.deck r = 4) ∧
      (∀ r, count_rank a.hand r ≤ 3) ∧ (∀ r, count_rank b.hand r ≤ 3) := by
  obtain ⟨hlen, hci, hname, htot, hbound⟩ := hinv
  rcases List.length_eq_two.1 hlen with ⟨a, b, hp⟩
  refine ⟨a, b, hp, hci, ?_, ?_, ?_, ?_⟩
  · rw [hp, getD_pair_zero, getD_pair_one] at hname
    exact hname
  · intro r
    rw [← rank_total_pair gm a b hp r]
    exact htot r
  · intro r
    exact hbound a (by rw [hp]; exact List.mem_cons_self _ _) r
  · intro r
    exact hbound b (by rw [hp]; exact List.mem_cons_of_mem _ (List.mem_singleton_self _)) r

theorem nat_le_sum_of_mem : ∀ (l : List Nat) (x : Nat), x ∈ l → x ≤ l.sum := by
  intro l
  induction l with
  | nil => intro x hx; cases hx
  | cons a t ih =>
      intro x hx
      rw [List.sum_cons]
      rcases List.mem_cons.1 hx with h | h
      · omega
      · have := ih x h
        omega

theorem other_hand_le_mu1 (gm : GoFishGame) : other_hand gm ≤ mu1 gm := by
  rw [other_hand, mu1]
  by_cases hj : 1 - gm.current_player_idx < gm.players.length
  · have hmem : gm.players.getD (1 - gm.current_player_idx) default ∈ gm.players := by
      rw [List.getD_eq_getElem _ _ hj]
      exact List.getElem_mem _
    have h2 := nat_le_sum_of_mem (gm.players.map (fun p => p.hand.length))
      ((gm.players.getD (1 - gm.current_player_idx) default).hand.length)
      (List.mem_map_of_mem _ hmem)
    omega
  · rw [List.getD_eq_getElem?_getD, List.getElem?_eq_none (by omega)]
    show (default : Player).hand.length ≤ _
    have : (default : Player).hand.length = 0 := rfl
    omega

theorem lex_pack (x1 y1 x2 y2 : Nat) (hy2 : y2 ≤ x2) (hle : x2 ≤ x1)
    (hdec : x2 < x1 ∨ y2 < y1) :
    x2 * (x2 + 1) + y2 < x1 * (x1 + 1) + y1 := by
  rcases hdec with h | h
  · have e1 : x2 * (x2 + 1 + 1) = x2 * (x2 + 1) + x2 := Nat.mul_succ _ _
    have e2 : x2 * (x2 + 1 + 1) ≤ (x1 - 1) * (x1 + 1) :=
      Nat.mul_le_mul (by omega) (by omega)
    have e3 : ((x1 - 1) + 1) * (x1 + 1) = (x1 - 1) * (x1 + 1) + (x1 + 1) :=
      Nat.succ_mul _ _
    have e4 : (x1 - 1) + 1 = x1 := by omega
    rw [e4] at e3
    omega
  · have e5 : x2 * (x2 + 1) ≤ x1 * (x1 + 1) := Nat.mul_le_mul hle (by omega)
    omega

/-- The packed termination measure (a strictly decreasing Nat encoding of the
lexicographic pair (mu1, other_hand), using other_hand ≤ mu1). -/
def measK (gm : GoFishGame) : Nat := mu1 gm * (mu1 gm + 1) + other_hand gm

theorem advance_pair (Z : GoFishGame) (a b : Player) (hp : Z.players = [a, b]) :
    advance_turn Z = { Z with current_player_idx := (Z.current_player_idx + 1) % 2 } := by
  unfold advance_turn
  rw [hp]
  rfl

theorem other_hand_pair_zero (gm : GoFishGame) (a b : Player) (hp : gm.players = [a, b])
    (hc : gm.current_player_idx = 0) : other_hand gm = b.hand.length := by
  rw [other_hand, hc, hp]
  rfl

theorem other_hand_pair_one (gm : GoFishGame) (a b : Player) (hp : gm.players = [a, b])
    (hc : gm.current_player_idx = 1) : other_hand gm = a.hand.length := by
  rw [other_hand, hc, hp]
  rfl

/-- Assembling the step conclusion from the computed shape of the result
state. -/
theorem step_concl (gm X : GoFishGame) (q0 q1 P0 P1 : Player) (Dx : List Card)
    (hpx : X.players = [P0, P1]) (hdx : X.deck = Dx) (hix : X.current_player_idx < 2)
    (hn0 : P0.name = q0.name) (hn1 : P1.name = q1.name)
    (hname : q0.name ≠ q1.name)
    (htx : ∀ r, pc r P0 + pc r P1 + count_rank Dx r = 4)
    (hc0 : ∀ r, count_rank P0.hand r ≤ 3) (hc1 : ∀ r, count_rank P1.hand r ≤ 3)
    (hmu : 2 * Dx.length + P0.hand.length + P1.hand.length ≤ mu1 gm)
    (hdec : 2 * Dx.length + P0.hand.length + P1.hand.length < mu1 gm ∨
      other_hand X < other_hand gm) :
    StableInv X ∧ mu1 X ≤ mu1 gm ∧ (mu1 X < mu1 gm ∨ other_hand X < other_hand gm) := by
  have hmx : mu1 X = 2 * Dx.length + P0.hand.length + P1.hand.length := by
    rw [mu1_pair X P0 P1 hpx, hdx]
  refine ⟨StableInv_mk X P0 P1 hpx hix (by rw [hn0, hn1]; exact hname)
      (fun r => by rw [hdx]; exact htx r) hc0 hc1, by omega, ?_⟩
  rcases hdec with h | h
  · exact Or.inl (by omega)
  · exact Or.inr h

/-- One turn of a two-player game satisfying the stable invariant: when
play_turn reports that the game continues, the invariant still holds and the
measure pair (mu1, other_hand) strictly decreases lexicographically. -/
theorem two_player_step (gm : GoFishGame) (g : Rng)
    (hinv : StableInv gm) (hb : (play_turn gm g).1 = true) :
    StableInv (play_turn gm g).2.1 ∧
    mu1 (play_turn gm g).2.1 ≤ mu1 gm ∧
    (mu1 (play_turn gm g).2.1 < mu1 gm ∨
      other_hand (play_turn gm g).2.1 < other_hand gm) := by
  obtain ⟨q0, q1, hp, hcilt, hname, htot, hq0b, hq1b⟩ := StableInv_elim gm hinv
  cases hover : gm.game_over with
  | true =>
      rw [play_turn_eq_over gm g hover] at hb
      cases hb
  | false =>
  cases hskip : ((gm.players.getD gm.current_player_idx default).hand.isEmpty &&
      gm.deck.isEmpty) with
  | true =>
      exfalso
      rw [play_turn_eq_skip gm g hover hskip] at hb
      rw [Bool.and_eq_true] at hskip
      obtain ⟨hemp, hde⟩ := hskip
      have hdeck : gm.deck = [] := List.isEmpty_iff.1 hde
      have hcur : (gm.players.getD gm.current_player_idx default).hand = [] :=
        List.isEmpty_iff.1 hemp
      have hci01 : gm.current_player_idx = 0 ∨ gm.current_player_idx = 1 := by omega
      have hq01 : q0.hand = [] ∧ q1.hand = [] := by
        rcases hci01 with h0 | h1
        · rw [h0, hp, getD_pair_zero] at hcur
          refine ⟨hcur, ?_⟩
          by_contra hne
          rcases List.exists_mem_of_ne_nil _ hne with ⟨c, hc⟩
          have hpos : 0 < count_rank q1.hand c.rank := (count_rank_pos _ _).2 ⟨c, hc, rfl⟩
          have hle3 := hq1b c.rank
          have h4 := htot c.rank
          rw [hdeck] at h4
          have hz : count_rank q0.hand c.rank = 0 := by rw [hcur]; rfl
          have hdz : count_rank ([] : List Card) c.rank = 0 := rfl
          unfold pc at h4
          omega
        · rw [h1, hp, getD_pair_one] at hcur
          refine ⟨?_, hcur⟩
          by_contra hne
          rcases List.exists_mem_of_ne_nil _ hne with ⟨c, hc⟩
          have hpos : 0 < count_rank q0.hand c.rank := (count_rank_pos _ _).2 ⟨c, hc, rfl⟩
          have hle3 := hq0b c.rank
          have h4 := htot c.rank
          rw [hdeck] at h4
          have hz : count_rank q1.hand c.rank = 0 := by rw [hcur]; rfl
          have hdz : count_rank ([] : List Card) c.rank = 0 := rfl
          unfold pc at h4
          omega
      have hcg : (check_game_over
          (advance_turn { gm with turn_count := gm.turn_count + 1 })).1 = false := by
        unfold check_game_over
        rw [advance_turn_players]
        dsimp only
        rw [hp]
        simp [hq01.1, hq01.2]
      rw [hcg] at hb
      cases hb
  | false =>
  have hci01 : gm.current_player_idx = 0 ∨ gm.current_player_idx = 1 := by omega
  have hmg : mu1 gm = 2 * gm.deck.length + q0.hand.length + q1.hand.length :=
    mu1_pair gm q0 q1 hp
  rcases hci01 with hc0 | hc1
  · obtain ⟨Q0, D, hgma, hQpc, hQb, hQne, hQlen, hQname⟩ : ∃ Q0 D,
        pre_ask_state gm =
          { gm with turn_count := gm.turn_count + 1, deck := D, players := [Q0, q1] } ∧
        (∀ r, pc r Q0 + count_rank D r = pc r q0 + count_rank gm.deck r) ∧
        (∀ r, count_rank Q0.hand r ≤ 3) ∧ Q0.hand ≠ [] ∧
        2 * D.length + Q0.hand.length ≤ 2 * gm.deck.length + q0.hand.length ∧
        Q0.name = q0.name := by
      cases hemp : (gm.players.getD gm.current_player_idx default).hand.isEmpty with
      | false =>
          have hq0ne : q0.hand ≠ [] := by
            rw [hc0, hp, getD_pair_zero] at hemp
            intro hnil
            rw [hnil] at hemp
            cases hemp
          refine ⟨q0, gm.deck, ?_, fun r => rfl, hq0b, hq0ne, le_refl _, rfl⟩
          rw [pre_ask_eq_of_filled gm hemp, ← hp]
      | true =>
          have hdne : gm.deck.isEmpty = false := by
            cases hdi : gm.deck.isEmpty
            · rfl
            · rw [hemp, hdi] at hskip; cases hskip
          obtain ⟨c, rest, hd⟩ : ∃ c rest, gm.deck = c :: rest := by
            cases hdd : gm.deck with
            | nil => rw [hdd] at hdne; cases hdne
            | cons c rest => exact ⟨c, rest, rfl⟩
          have hq0 : q0.hand = [] := by
            rw [hc0, hp, getD_pair_zero] at hemp
            exact List.isEmpty_iff.1 hemp
          refine ⟨draw_cur q0 c, rest, ?_, ?_,
            fun r => draw_cur_bound q0 c r hq0, ?_, ?_, rfl⟩
          · rw [pre_ask_eq_of_drawn gm hemp,
              empty_hand_draw_pair_zero { gm with turn_count := gm.turn_count + 1 }
                q0 q1 c rest hp hd hc0]
          · intro r
            rw [draw_cur_pc, hd, count_rank_cons]
            omega
          · rw [draw_cur_hand q0 c hq0]
            simp
          · rw [draw_cur_hand q0 c hq0, hd, hq0]
            show 2 * rest.length + 1 ≤ 2 * (rest.length + 1) + 0
            omega
    have hp2 : (pre_ask_state gm).players = [Q0, q1] := by rw [hgma]
    have hd2 : (pre_ask_state gm).deck = D := by rw [hgma]
    have hQq1 : Q0.name ≠ q1.name := by rw [hQname]; exact hname
    rw [play_turn_eq gm g hover hskip]
    dsimp only
    rw [hc0, hp2, other_names_pair_zero, getD_pair_zero]
    simp only [List.isEmpty_cons, Bool.false_eq_true, if_false]
    have hprm : (Player.choose_player_to_ask Q0 [q1.name] g).1 = q1.name :=
      List.mem_singleton.1 (choose_player_mem Q0 [q1.name] g (by simp))
    rw [hprm, findIdx_pair_second Q0 q1 hQq1, getD_pair_one]
    obtain ⟨rank, g2, hrk, hcnt⟩ :=
      choose_rank_spec Q0 (Player.choose_player_to_ask Q0 [q1.name] g).2 hQne
    rw [hrk]
    dsimp only
    cases hmiss : (q1.hand.filter (fun c => decide (c.rank = rank))).isEmpty with
    | true =>
        simp only [hmiss, if_true]
        have hcq1 : count_rank q1.hand rank = 0 := by
          rw [count_rank, List.countP_eq_length_filter, List.isEmpty_iff.1 hmiss]
          rfl
        cases hD : D with
        | nil =>
            exfalso
            have h5 := hQpc rank
            rw [hD] at h5
            have hz : count_rank ([] : List Card) rank = 0 := rfl
            have h4 := htot rank
            have hq3 := hQb rank
            unfold pc at h4 h5
            omega
        | cons c2 rest2 =>
            have hdd : (pre_ask_state gm).deck = c2 :: rest2 := by rw [hd2, hD]
            rw [resolve_miss_pair_zero (pre_ask_state gm) Q0 q1 q1.name rank c2 rest2
              hp2 hdd]
            have htx : ∀ r, pc r (xfer_miss_cur Q0 q1.name rank c2) + pc r q1 +
                count_rank rest2 r = 4 := by
              intro r
              have h1 := xfer_miss_pc Q0 q1.name rank c2 r
              have h2 := hQpc r
              have h3 := htot r
              rw [hD, count_rank_cons] at h2
              omega
            have hbP0 : ∀ r, count_rank (xfer_miss_cur Q0 q1.name rank c2).hand r ≤ 3 :=
              fun r => xfer_miss_bound Q0 q1.name rank c2 r (hQb r)
            have hml := xfer_miss_len Q0 q1.name rank c2
            have hDl : D.length = rest2.length + 1 := by rw [hD]; rfl
            by_cases hcr : c2.rank = rank
            · rw [if_pos hcr]
              refine step_concl gm _ q0 q1 (xfer_miss_cur Q0 q1.name rank c2) q1 rest2
                ?_ ?_ ?_ ?_ rfl hname htx hbP0 hq1b (by omega) (Or.inl (by omega))
              · rw [check_game_over_players]
              · rw [check_game_over_deck]
              · rw [check_game_over_idx]
                dsimp only
                rw [pre_ask_state_idx, hc0]
                omega
              · rw [xfer_miss_name, hQname]
            · rw [if_neg hcr]
              refine step_concl gm _ q0 q1 (xfer_miss_cur Q0 q1.name rank c2) q1 rest2
                ?_ ?_ ?_ ?_ rfl hname htx hbP0 hq1b (by omega) (Or.inl (by omega))
              · rw [check_game_over_players, advance_turn_players]
              · rw [check_game_over_deck, advance_turn_deck]
              · rw [check_game_over_idx, advance_turn_idx]
                dsimp only
                simp only [List.length_cons, List.length_nil]
                exact Nat.mod_lt _ (by omega)
              · rw [xfer_miss_name, hQname]
    | false =>
        simp only [hmiss, Bool.false_eq_true, if_false]
        rw [resolve_hit_pair_zero (pre_ask_state gm) Q0 q1 q1.name rank hp2]
        have hsum : count_rank Q0.hand rank + count_rank q1.hand rank ≤ 4 := by
          have h2 := hQpc rank
          have h3 := htot rank
          unfold pc at h2 h3
          omega
        have htx : ∀ r, pc r (xfer_hit_cur Q0 q1 q1.name rank) +
            pc r (xfer_hit_tgt q1 rank) + count_rank D r = 4 := by
          intro r
          have h1 := xfer_hit_pc Q0 q1 q1.name rank r
          have h2 := hQpc r
          have h3 := htot r
          omega
        have hbP0 : ∀ r, count_rank (xfer_hit_cur Q0 q1 q1.name rank).hand r ≤ 3 :=
          fun r => xfer_hit_cur_bound Q0 q1 q1.name rank r (hQb r) hsum
        have hbP1 : ∀ r, count_rank (xfer_hit_tgt q1 rank).hand r ≤ 3 :=
          fun r => xfer_hit_tgt_bound q1 rank r (hq1b r)
        have hhl := xfer_hit_len Q0 q1 q1.name rank
        have hpx : (check_game_over { pre_ask_state gm with
            players := [xfer_hit_cur Q0 q1 q1.name rank,
              xfer_hit_tgt q1 rank] }).2.players =
            [xfer_hit_cur Q0 q1 q1.name rank, xfer_hit_tgt q1 rank] := by
          rw [check_game_over_players]
        have hxio : (check_game_over { pre_ask_state gm with
            players := [xfer_hit_cur Q0 q1 q1.name rank,
              xfer_hit_tgt q1 rank] }).2.current_player_idx = 0 := by
          rw [check_game_over_idx]
          dsimp only
          rw [pre_ask_state_idx, hc0]
        refine step_concl gm _ q0 q1 (xfer_hit_cur Q0 q1 q1.name rank)
          (xfer_hit_tgt q1 rank) D hpx ?_ (by rw [hxio]; omega)
          (by rw [xfer_hit_cur_name, hQname]) (xfer_hit_tgt_name q1 rank) hname htx
          hbP0 hbP1 (by omega) (Or.inr ?_)
        · rw [check_game_over_deck]
          dsimp only
          exact hd2
        · rw [other_hand_pair_zero _ _ _ hpx hxio, other_hand_pair_zero gm q0 q1 hp hc0]
          refine xfer_hit_tgt_len_lt q1 rank ?_
          intro heq
          rw [heq] at hmiss
          cases hmiss
  · obtain ⟨Q1, D, hgma, hQpc, hQb, hQne, hQlen, hQname⟩ : ∃ Q1 D,
        pre_ask_state gm =
          { gm with turn_count := gm.turn_count + 1, deck := D, players := [q0, Q1] } ∧
        (∀ r, pc r Q1 + count_rank D r = pc r q1 + count_rank gm.deck r) ∧
        (∀ r, count_rank Q1.hand r ≤ 3) ∧ Q1.hand ≠ [] ∧
        2 * D.length + Q1.hand.length ≤ 2 * gm.deck.length + q1.hand.length ∧
        Q1.name = q1.name := by
      cases hemp : (gm.players.getD gm.current_player_idx default).hand.isEmpty with
      | false =>
          have hq1ne : q1.hand ≠ [] := by
            rw [hc1, hp, getD_pair_one] at hemp
            intro hnil
            rw [hnil] at hemp
            cases hemp
          refine ⟨q1, gm.deck, ?_, fun r => rfl, hq1b, hq1ne, le_refl _, rfl⟩
          rw [pre_ask_eq_of_filled gm hemp, ← hp]
      | true =>
          have hdne : gm.deck.isEmpty = false := by
            cases hdi : gm.deck.isEmpty
            · rfl
            · rw [hemp, hdi] at hskip; cases hskip
          obtain ⟨c, rest, hd⟩ : ∃ c rest, gm.deck = c :: rest := by
            cases hdd : gm.deck with
            | nil => rw [hdd] at hdne; cases hdne
            | cons c rest => exact ⟨c, rest, rfl⟩
          have hq1e : q1.hand = [] := by
            rw [hc1, hp, getD_pair_one] at hemp
            exact List.isEmpty_iff.1 hemp
          refine ⟨draw_cur q1 c, rest, ?_, ?_,
            fun r => draw_cur_bound q1 c r hq1e, ?_, ?_, rfl⟩
          · rw [pre_ask_eq_of_drawn gm hemp,
              empty_hand_draw_pair_one { gm with turn_count := gm.turn_count + 1 }
                q0 q1 c rest hp hd hc1]
          · intro r
            rw [draw_cur_pc, hd, count_rank_cons]
            omega
          · rw [draw_cur_hand q1 c hq1e]
            simp
          · rw [draw_cur_hand q1 c hq1e, hd, hq1e]
            show 2 * rest.length + 1 ≤ 2 * (rest.length + 1) + 0
            omega
    have hp2 : (pre_ask_state gm).players = [q0, Q1] := by rw [hgma]
    have hd2 : (pre_ask_state gm).deck = D := by rw [hgma]
    rw [play_turn_eq gm g hover hskip]
    dsimp only
    rw [hc1, hp2, other_names_pair_one, getD_pair_one]
    simp only [List.isEmpty_cons, Bool.false_eq_true, if_false]
    have hprm : (Player.choose_player_to_ask Q1 [q0.name] g).1 = q0.name :=
      List.mem_singleton.1 (choose_player_mem Q1 [q0.name] g (by simp))
    rw [hprm, findIdx_pair_first q0 Q1, getD_pair_zero]
    obtain ⟨rank, g2, hrk, hcnt⟩ :=
      choose_rank_spec Q1 (Player.choose_player_to_ask Q1 [q0.name] g).2 hQne
    rw [hrk]
    dsimp only
    cases hmiss : (q0.hand.filter (fun c => decide (c.rank = rank))).isEmpty with
    | true =>
        simp only [hmiss, if_true]
        have hcq0 : count_rank q0.hand rank = 0 := by
          rw [count_rank, List.countP_eq_length_filter, List.isEmpty_iff.1 hmiss]
          rfl
        cases hD : D with
        | nil =>
            exfalso
            have h5 := hQpc rank
            rw [hD] at h5
            have hz : count_rank ([] : List Card) rank = 0 := rfl
            have h4 := htot rank
            have hq3 := hQb rank
            unfold pc at h4 h5
            omega
        | cons c2 rest2 =>
            have hdd : (pre_ask_state gm).deck = c2 :: rest2 := by rw [hd2, hD]
            rw [resolve_miss_pair_one (pre_ask_state gm) q0 Q1 q0.name rank c2 rest2
              hp2 hdd]
            have htx : ∀ r, pc r q0 + pc r (xfer_miss_cur Q1 q0.name rank c2) +
                count_rank rest2 r = 4 := by
              intro r
              have h1 := xfer_miss_pc Q1 q0.name rank c2 r
              have h2 := hQpc r
              have h3 := htot r
              rw [hD, count_rank_cons] at h2
              omega
            have hbP1 : ∀ r, count_rank (xfer_miss_cur Q1 q0.name rank c2).hand r ≤ 3 :=
              fun r => xfer_miss_bound Q1 q0.name rank c2 r (hQb r)
            have hml := xfer_miss_len Q1 q0.name rank c2
            have hDl : D.length = rest2.length + 1 := by rw [hD]; rfl
            by_cases hcr : c2.rank = rank
            · rw [if_pos hcr]
              refine step_concl gm _ q0 q1 q0 (xfer_miss_cur Q1 q0.name rank c2) rest2
                ?_ ?_ ?_ rfl ?_ hname htx hq0b hbP1 (by omega) (Or.inl (by omega))
              · rw [check_game_over_players]
              · rw [check_game_over_deck]
              · rw [check_game_over_idx]
                dsimp only
                rw [pre_ask_state_idx, hc1]
                omega
              · rw [xfer_miss_name, hQname]
            · rw [if_neg hcr]
              refine step_concl gm _ q0 q1 q0 (xfer_miss_cur Q1 q0.name rank c2) rest2
                ?_ ?_ ?_ rfl ?_ hname htx hq0b hbP1 (by omega) (Or.inl (by omega))
              · rw [check_game_over_players, advance_turn_players]
              · rw [check_game_over_deck, advance_turn_deck]
              · rw [check_game_over_idx, advance_turn_idx]
                dsimp only
                simp only [List.length_cons, List.length_nil]
                exact Nat.mod_lt _ (by omega)
              · rw [xfer_miss_name, hQname]
    | false =>
        simp only [hmiss, Bool.false_eq_true, if_false]
        rw [resolve_hit_pair_one (pre_ask_state gm) q0 Q1 q0.name rank hp2]
        have hsum : count_rank Q1.hand rank + count_rank q0.hand rank ≤ 4 := by
          have h2 := hQpc rank
          have h3 := htot rank
          unfold pc at h2 h3
          omega
        have htx : ∀ r, pc r (xfer_hit_tgt q0 rank) +
            pc r (xfer_hit_cur Q1 q0 q0.name rank) + count_rank D r = 4 := by
          intro r
          have h1 := xfer_hit_pc Q1 q0 q0.name rank r
          have h2 := hQpc r
          have h3 := htot r
          omega
        have hbP1 : ∀ r, count_rank (xfer_hit_cur Q1 q0 q0.name rank).hand r ≤ 3 :=
          fun r => xfer_hit_cur_bound Q1 q0 q0.name rank r (hQb r) hsum
        have hbP0 : ∀ r, count_rank (xfer_hit_tgt q0 rank).hand r ≤ 3 :=
          fun r => xfer_hit_tgt_bound q0 rank r (hq0b r)
        have hhl := xfer_hit_len Q1 q0 q0.name rank
        have hpx : (check_game_over { pre_ask_state gm with
            players := [xfer_hit_tgt q0 rank,
              xfer_hit_cur Q1 q0 q0.name rank] }).2.players =
            [xfer_hit_tgt q0 rank, xfer_hit_cur Q1 q0 q0.name rank] := by
          rw [check_game_over_players]
        have hxio : (check_game_over { pre_ask_state gm with
            players := [xfer_hit_tgt q0 rank,
              xfer_hit_cur Q1 q0 q0.name rank] }).2.current_player_idx = 1 := by
          rw [check_game_over_idx]
          dsimp only
          rw [pre_ask_state_idx, hc1]
        refine step_concl gm _ q0 q1 (xfer_hit_tgt q0 rank)
          (xfer_hit_cur Q1 q0 q0.name rank) D hpx ?_ (by rw [hxio]; omega)
          (xfer_hit_tgt_name q0 rank) (by rw [xfer_hit_cur_name, hQname]) hname htx
          hbP0 hbP1 (by omega) (Or.inr ?_)
        · rw [check_game_over_deck]
          dsimp only
          exact hd2
        · rw [other_hand_pair_one _ _ _ hpx hxio, other_hand_pair_one gm q0 q1 hp hc1]
          refine xfer_hit_tgt_len_lt q0 rank ?_
          intro heq
          rw [heq] at hmiss
          cases hmiss

/-! ### The invariant holds right after setup -/

theorem count_rank_take_drop (l : List Card) (n : Nat) (r : Rank) :
    count_rank (l.take n) r + count_rank (l.drop n) r = count_rank l r := by
  conv_rhs => rw [← List.take_append_drop n l]
  rw [count_rank_append]

theorem setup_two (gm : GoFishGame) (hlen : gm.players.length = 2) :
    setup gm = deal_one (deal_one gm 0) 1 := by
  unfold setup
  rw [hlen]
  rfl

theorem deal_one_pair_zero (gm : GoFishGame) (a b : Player) (hp : gm.players = [a, b]) :
    deal_one gm 0 = { gm with
      deck := gm.deck.drop gm.initial_cards,
      players := [(check_for_books
        { a with hand := a.hand ++ gm.deck.take gm.initial_cards }).2, b] } := by
  unfold deal_one draw_multiple
  dsimp only
  rw [hp, update_pair_zero, update_pair_zero]

theorem deal_one_pair_one (gm : GoFishGame) (a b : Player) (hp : gm.players = [a, b]) :
    deal_one gm 1 = { gm with
      deck := gm.deck.drop gm.initial_cards,
      players := [a, (check_for_books
        { b with hand := b.hand ++ gm.deck.take gm.initial_cards }).2] } := by
  unfold deal_one draw_multiple
  dsimp only
  rw [hp, update_pair_one, update_pair_one]

theorem setup_pair_eq (gm : GoFishGame) (a b : Player) (hp : gm.players = [a, b]) :
    setup gm = { gm with
      deck := (gm.deck.drop gm.initial_cards).drop gm.initial_cards,
      players :=
        [(check_for_books { a with hand := a.hand ++ gm.deck.take gm.initial_cards }).2,
         (check_for_books { b with hand := b.hand ++
           (gm.deck.drop gm.initial_cards).take gm.initial_cards }).2] } := by
  rw [setup_two gm (by rw [hp]; rfl)]
  rw [deal_one_pair_zero gm a b hp]
  rw [deal_one_pair_one
    { gm with
      deck := gm.deck.drop gm.initial_cards,
      players := [(check_for_books
        { a with hand := a.hand ++ gm.deck.take gm.initial_cards }).2, b] }
    (check_for_books { a with hand := a.hand ++ gm.deck.take gm.initial_cards }).2 b rfl]

/-- The two-player stable invariant holds right after dealing: each player is
dealt a block of the (shuffled) deck, pre-formed books are extracted, and the
per-rank totals come from the deck alone. -/
theorem setup_pair_inv (gm : GoFishGame) (a b : Player) (hp : gm.players = [a, b])
    (hci : gm.current_player_idx = 0)
    (hah : a.hand = []) (hbh : b.hand = []) (hab : a.books = []) (hbb2 : b.books = [])
    (hnm : a.name ≠ b.name)
    (hdk : ∀ r, count_rank gm.deck r = 4) :
    StableInv (setup gm) := by
  have hs := setup_pair_eq gm a b hp
  refine StableInv_mk (setup gm)
    (check_for_books { a with hand := a.hand ++ gm.deck.take gm.initial_cards }).2
    (check_for_books { b with hand := b.hand ++
      (gm.deck.drop gm.initial_cards).take gm.initial_cards }).2
    (by rw [hs]) ?_ (by exact hnm) ?_ ?_ ?_
  · rw [hs]
    show gm.current_player_idx < 2
    rw [hci]
    omega
  · intro r
    have hxd : (setup gm).deck =
        (gm.deck.drop gm.initial_cards).drop gm.initial_cards := by rw [hs]
    rw [hxd]
    have hc0 := check_for_books_count
      { a with hand := a.hand ++ gm.deck.take gm.initial_cards } r
    have hc1 := check_for_books_count
      { b with hand := b.hand ++
        (gm.deck.drop gm.initial_cards).take gm.initial_cards } r
    dsimp only at hc0 hc1
    rw [count_rank_append] at hc0 hc1
    have hz0 : count_rank a.hand r = 0 := by rw [hah]; rfl
    have hz1 : count_rank b.hand r = 0 := by rw [hbh]; rfl
    have hzb0 : a.books.count r = 0 := by rw [hab]; rfl
    have hzb1 : b.books.count r = 0 := by rw [hbb2]; rfl
    have ht1 := count_rank_take_drop gm.deck gm.initial_cards r
    have ht2 := count_rank_take_drop (gm.deck.drop gm.initial_cards) gm.initial_cards r
    have hd4 := hdk r
    unfold pc
    omega
  · intro r
    apply check_for_books_bound
    show count_rank (a.hand ++ gm.deck.take gm.initial_cards) r ≤ 4
    rw [count_rank_append]
    have hz0 : count_rank a.hand r = 0 := by rw [hah]; rfl
    have hsub := count_rank_sublist (gm.deck.take gm.initial_cards) gm.deck r
      (List.take_sublist _ _)
    have hd4 := hdk r
    omega
  · intro r
    apply check_for_books_bound
    show count_rank (b.hand ++
      (gm.deck.drop gm.initial_cards).take gm.initial_cards) r ≤ 4
    rw [count_rank_append]
    have hz1 : count_rank b.hand r = 0 := by rw [hbh]; rfl
    have hsub := count_rank_sublist
      ((gm.deck.drop gm.initial_cards).take gm.initial_cards) gm.deck r
      ((List.take_sublist _ _).trans (List.drop_sublist _ _))
    have hd4 := hdk r
    omega

/-! ### Termination of the two-player game -/

theorem two_player_run : ∀ (k : Nat) (gm : GoFishGame) (g : Rng),
    measK gm ≤ k → StableInv gm → loop_ends (gm, g) := by
  intro k
  induction k with
  | zero =>
      intro gm g hk hinv
      cases hbv : (play_turn gm g).1 with
      | false => exact ⟨0, hbv⟩
      | true =>
          exfalso
          obtain ⟨hinv2, hle, hdec⟩ := two_player_step gm g hinv hbv
          have hK := lex_pack (mu1 gm) (other_hand gm) (mu1 (play_turn gm g).2.1)
            (other_hand (play_turn gm g).2.1) (other_hand_le_mu1 _) hle hdec
          unfold measK at hk
          omega
  | succ n ih =>
      intro gm g hk hinv
      cases hbv : (play_turn gm g).1 with
      | false => exact ⟨0, hbv⟩
      | true =>
          obtain ⟨hinv2, hle, hdec⟩ := two_player_step gm g hinv hbv
          have hK := lex_pack (mu1 gm) (other_hand gm) (mu1 (play_turn gm g).2.1)
            (other_hand (play_turn gm g).2.1) (other_hand_le_mu1 _) hle hdec
          have hk2 : measK (play_turn gm g).2.1 ≤ n := by
            unfold measK at hk ⊢
            omega
          obtain ⟨n2, hn2⟩ := ih (play_turn gm g).2.1 (play_turn gm g).2.2 hk2 hinv2
          refine ⟨n2 + 1, ?_⟩
          unfold turn_result at hn2 ⊢
          rw [run_turns_unfold n2]
          exact hn2

/-- Claim C2, amended: the original claim quantifies over every player count
at least 2, and is refuted by `C2_nontermination_counterexample` (four random
players, an adversarial stream).  Restricted to exactly two players with
distinct names, it holds: for every deck that is a permutation of the
standard 52-card deck, every initial-cards value, every mix of the three
non-interactive strategies, and every behaviour of the random source, the
play_game loop reaches, after finitely many play_turn calls, a call that
returns false. -/
theorem C2_two_player_termination (n0 n1 : String) (s0 s1 : Strategy) (m : Nat)
    (deck0 : List Card) (g : Rng) (hperm : deck0.Perm standard_deck) (hne : n0 ≠ n1) :
    loop_ends (setup (init_game [(n0, s0), (n1, s1)] deck0 m), g) := by
  refine two_player_run (measK (setup (init_game [(n0, s0), (n1, s1)] deck0 m)))
    _ g (le_refl _) ?_
  refine setup_pair_inv (init_game [(n0, s0), (n1, s1)] deck0 m)
    (init_player n0 s0) (init_player n1 s1) rfl rfl rfl rfl rfl rfl hne ?_
  intro r
  have h := hperm.countP_eq (fun c => decide (c.rank = r))
  show count_rank deck0 r = 4
  unfold count_rank
  rw [h]
  have h2 : count_rank standard_deck r = 4 := by cases r <;> rfl
  exact h2

/-- Witness for the amended claim C2 at a concrete game: Alice and Bob, both
with the random strategy, the unshuffled standard deck, 7 initial cards, and
the all-zero stream. -/
theorem C2_two_player_termination_witness :
    standard_deck.Perm standard_deck ∧ "Alice" ≠ "Bob" ∧
    loop_ends (setup (init_game [("Alice", Strategy.random), ("Bob", Strategy.random)]
      standard_deck 7), fun _ => 0) :=
  ⟨List.Perm.refl _, by decide,
    C2_two_player_termination "Alice" "Bob" Strategy.random Strategy.random 7
      standard_deck (fun _ => 0) (List.Perm.refl _) (by decide)⟩
